import Mathlib

/-! Verification of owogrind: command scheduling, chain construction and configuration
validation.

A shallow embedding of

* `cmd/dankgrinder/scheduler.go` (queue coordinator, dispatch loop, watcher, reschedule),
  in namespace `Dankgrinder`;
* `config/validate.go` with the types of `config/config.go`, in namespace `ConfigPkg`;
* `instance/commands.go` (newCmds, newCmdChain), in namespace `InstancePkg`;

followed by theorems about them.

Conventions.  Go `int` and `time.Duration` values are `Int`; where a conversion or a
multiplication can wrap, the wrap is written out.  A goroutine is a component of a
state with a program counter, and one `step` is one atomic action of one goroutine.
In `step` a queue coordinator acts within the action of the goroutine it exchanges a
command with; in `stepFine` the coordinators have program counters of their own.
A `*command` of scheduler.go is never written through, so it is embedded as the
command value.  A `*scheduler.Command` of commands.go is written through (`Next`,
`Interval`), so it is embedded as an address into an explicit heap.  An `error` is
an `Option String`.
-/

/-! # Part 1: the embedding -/

namespace Dankgrinder

/-! ## scheduler.go: types -/

/-- A channel made by `make(chan ...)`, identified by the order of creation. -/
abbrev Chan := Nat

/-- The struct `command` (scheduler.go lines 29-36); `interval` is a time.Duration,
a signed count of nanoseconds. -/
structure command where
  content : String
  response : Bool
  interval : Int
deriving DecidableEq, Repr

/-- The struct `queue` (lines 23-27); `queued` is the container/list of the
coordinator, front first. -/
structure queue where
  enqueue : Chan
  dequeue : Chan
  queued : List command
deriving DecidableEq, Repr

/-- The struct `scheduler` (lines 16-21). -/
structure scheduler where
  schedule : Chan
  priority : Chan
  priorityQueue : queue
  queue : queue
deriving DecidableEq, Repr

/-! ## container/list, as far as scheduler.go uses it -/

/-- The method `(*List).Len`. -/
def Len (l : List command) : Nat := l.length

/-- The method `(*List).PushBack`. -/
def PushBack (l : List command) (cmd : command) : List command := l ++ [cmd]

/-- The method `(*List).Front`: the first element, or nil on an empty list. -/
def Front (l : List command) : Option command := l.head?

/-- The call `l.Remove(l.Front())`. -/
def RemoveFront (l : List command) : List command := l.tail

/-! ## startNewQueue (lines 56-78) -/

/-- What the outside world can do with one queue: send a command on `q.enqueue`, or
receive on `q.dequeue`. -/
inductive QueueEvent where
  | enqueue (cmd : command)
  | dequeue
deriving DecidableEq, Repr

/-- The result of offering an event to a goroutine: it takes it, it is not ready for
it (the other side stays blocked), or it panics. -/
inductive Offer (α : Type) where
  | ok (a : α)
  | blocked
  | panic
deriving DecidableEq, Repr

/-- The queue returned by `startNewQueue`: two fresh channels and `list.New()`. -/
def startNewQueue (enq deq : Chan) : queue :=
  { enqueue := enq, dequeue := deq, queued := [] }

/-- One iteration of the coordinator goroutine of `startNewQueue` (lines 63-75), for
the event that resolves its blocking operation.  The result carries the new
backing list and the command handed out, if any.  On a non-empty list the select
statement first evaluates `q.queued.Front().Value`, which panics on nil. -/
def coordinator (q : queue) (ev : QueueEvent) : Offer (queue × Option command) :=
  if Len q.queued = 0 then
    match ev with
    | .enqueue cmd => .ok ({ q with queued := PushBack q.queued cmd }, none)
    | .dequeue => .blocked
  else
    match Front q.queued with
    | none => .panic
    | some front =>
      match ev with
      | .enqueue cmd => .ok ({ q with queued := PushBack q.queued cmd }, none)
      | .dequeue => .ok ({ q with queued := RemoveFront q.queued }, some front)

/-- The coordinator run over a sequence of events, from queue `q`; `out` collects the
commands handed out, oldest first.  The run is `none` when an event is not taken
or the coordinator panics. -/
def coordinatorRun (q : queue) (out : List command) :
    List QueueEvent → Option (queue × List command)
  | [] => some (q, out)
  | ev :: evs =>
    match coordinator q ev with
    | .ok (q1, none) => coordinatorRun q1 out evs
    | .ok (q1, some cmd) => coordinatorRun q1 (out ++ [cmd]) evs
    | .blocked => none
    | .panic => none

/-- The commands sent on `q.enqueue` in a sequence of events, in order. -/
def accepted : List QueueEvent → List command
  | [] => []
  | .enqueue cmd :: evs => cmd :: accepted evs
  | .dequeue :: evs => accepted evs

/-! ## startNewScheduler (lines 80-121) and reschedule (lines 123-131) -/

namespace Offer

/-- Continue with `f` when the event was taken. -/
def bind {α β : Type} (o : Offer α) (f : α → Offer β) : Offer β :=
  match o with
  | .ok a => f a
  | .blocked => .blocked
  | .panic => .panic

end Offer

/-- The field of the scheduler a command was received from: `s.priorityQueue` or
`s.queue`. -/
inductive Origin where
  | priorityQueue
  | queue
deriving DecidableEq, Repr

/-- One call `sendMessage(cmd.content, abortArg)` of the dispatch loop, with the queue
the command came from; `abortArg = none` is the nil channel. -/
structure Dispatch where
  cmd : command
  origin : Origin
  abortArg : Option Chan
deriving DecidableEq, Repr

/-- Where the dispatch-loop goroutine (lines 100-119) stands: before the test of
line 102, blocked in the receive of line 103, blocked in the select of lines
111-114, or inside `sendMessage` for `cmd`. -/
inductive LoopPc where
  | top
  | recvPriority
  | select
  | sending (cmd : command) (abortArg : Option Chan)
deriving DecidableEq, Repr

/-- Where the watcher goroutine (lines 91-98) stands: before the test of line 93,
blocked in `abort <- true` of line 94, or in the sleep of line 96. -/
inductive WatcherPc where
  | test
  | sendAbort
  | sleep
deriving DecidableEq, Repr

/-- The scheduler with its goroutines.  `timers` are the goroutines started by
`reschedule` that have not sent yet, each with the channel it sends on.
`dispatched`, `armed` and `logged` are history: every `sendMessage` call of the
loop, every `reschedule` call, and the number of send errors logged. -/
structure State where
  s : scheduler
  abort : Chan
  loop : LoopPc
  watcher : WatcherPc
  timers : List (Chan × command)
  dispatched : List Dispatch
  armed : List (Chan × command)
  logged : Nat
deriving DecidableEq, Repr

/-- The atomic actions of the scheduler and of its environment. -/
inductive Event where
  /-- A producer's send of `cmd` on channel `ch` is received. -/
  | send (ch : Chan) (cmd : command)
  /-- The send of the `i`-th waiting `reschedule` goroutine is received (line 129). -/
  | timer (i : Nat)
  /-- The dispatch loop evaluates the test of line 102. -/
  | loopTest
  /-- The receive of line 103 completes. -/
  | loopRecvPriority
  /-- The select of lines 111-114 completes with the given case. -/
  | loopSelect (arm : Origin)
  /-- The call of `sendMessage` returns; `err` tells whether `auth.SendMessage` gave an
  error, which line 52 logs. -/
  | sendReturn (err : Bool)
  /-- The watcher evaluates the test of line 93. -/
  | watcherTest
  /-- The watcher's `abort <- true` is received by the send in progress. -/
  | abortRecv
  /-- The watcher's sleep of line 96 ends. -/
  | watcherWake
deriving DecidableEq, Repr

/-- The state right after `startNewScheduler`: the normal queue `q` (channels 0, 1),
the priority queue `qp` (channels 2, 3), `priority: qp.enqueue`,
`schedule: q.enqueue`, the abort channel (4), and both goroutines at their start. -/
def startNewScheduler : State :=
  let q := startNewQueue 0 1
  let qp := startNewQueue 2 3
  { s := { priority := qp.enqueue, schedule := q.enqueue, queue := q, priorityQueue := qp }
    abort := 4
    loop := .top
    watcher := .test
    timers := []
    dispatched := []
    armed := []
    logged := 0 }

/-- A value sent on channel `ch` goes to the coordinator that receives on `ch`, the
one of the queue whose `enqueue` channel it is. -/
def deliver (s : scheduler) (ch : Chan) (cmd : command) : Offer scheduler :=
  if ch = s.queue.enqueue then
    (coordinator s.queue (.enqueue cmd)).bind fun r => .ok { s with queue := r.1 }
  else if ch = s.priorityQueue.enqueue then
    (coordinator s.priorityQueue (.enqueue cmd)).bind fun r =>
      .ok { s with priorityQueue := r.1 }
  else .blocked

/-- The receive `<-q.dequeue`: the coordinator of `q` hands out a command. -/
def receive (q : queue) : Offer (queue × command) :=
  (coordinator q .dequeue).bind fun r =>
    match r.2 with
    | some cmd => .ok (r.1, cmd)
    | none => .blocked

/-- The method `reschedule` (lines 126-131): a goroutine that sleeps `cmd.interval`
and then sends `cmd` on `s.schedule`. -/
def reschedule (s : scheduler) (cmd : command) : Chan × command :=
  (s.schedule, cmd)

/-- The loop enters `sendMessage(cmd.content, abortArg)`. -/
def enterSend (st : State) (cmd : command) (origin : Origin) (abortArg : Option Chan) :
    State :=
  { st with
    loop := .sending cmd abortArg
    dispatched := st.dispatched ++ [{ cmd := cmd, origin := origin, abortArg := abortArg }] }

/-- One atomic action.  The loop's program text is lines 101-118: the test of line
102 chooses between the receive of line 103 and the select; a command received
from `s.priorityQueue.dequeue` is sent with nil (lines 104, 112), one received
from `s.queue.dequeue` with `abort` (line 113); after the send, lines 105-107 and
115-117 call `reschedule` when `cmd.interval > 0`. -/
def step (st : State) : Event → Offer State
  | .send ch cmd => (deliver st.s ch cmd).bind fun s1 => .ok { st with s := s1 }
  | .timer i =>
    match st.timers.get? i with
    | none => .blocked
    | some t =>
      (deliver st.s t.1 t.2).bind fun s1 =>
        .ok { st with s := s1, timers := st.timers.eraseIdx i }
  | .loopTest =>
    match st.loop with
    | .top =>
      if Len st.s.priorityQueue.queued > 0 then .ok { st with loop := .recvPriority }
      else .ok { st with loop := .select }
    | _ => .blocked
  | .loopRecvPriority =>
    match st.loop with
    | .recvPriority =>
      (receive st.s.priorityQueue).bind fun r =>
        .ok (enterSend { st with s := { st.s with priorityQueue := r.1 } } r.2
          .priorityQueue none)
    | _ => .blocked
  | .loopSelect arm =>
    match st.loop with
    | .select =>
      match arm with
      | .priorityQueue =>
        (receive st.s.priorityQueue).bind fun r =>
          .ok (enterSend { st with s := { st.s with priorityQueue := r.1 } } r.2
            .priorityQueue none)
      | .queue =>
        (receive st.s.queue).bind fun r =>
          .ok (enterSend { st with s := { st.s with queue := r.1 } } r.2
            .queue (some st.abort))
    | _ => .blocked
  | .sendReturn err =>
    match st.loop with
    | .sending cmd _ =>
      let st1 := { st with loop := .top, logged := if err then st.logged + 1 else st.logged }
      if cmd.interval > 0 then
        .ok { st1 with
          timers := st1.timers ++ [reschedule st.s cmd]
          armed := st1.armed ++ [reschedule st.s cmd] }
      else .ok st1
    | _ => .blocked
  | .watcherTest =>
    match st.watcher with
    | .test =>
      if Len st.s.priorityQueue.queued > 0 then .ok { st with watcher := .sendAbort }
      else .ok { st with watcher := .sleep }
    | _ => .blocked
  | .abortRecv =>
    match st.watcher, st.loop with
    | .sendAbort, .sending _ (some ch) =>
      if ch = st.abort then .ok { st with watcher := .sleep } else .blocked
    | _, _ => .blocked
  | .watcherWake =>
    match st.watcher with
    | .sleep => .ok { st with watcher := .test }
    | _ => .blocked

/-- The scheduler run over a sequence of actions. -/
def run (st : State) : List Event → Offer State
  | [] => .ok st
  | ev :: evs => (step st ev).bind fun st1 => run st1 evs

/-- A state the scheduler can be in: one reached from `startNewScheduler`. -/
def Reachable (st : State) : Prop := ∃ evs, run startNewScheduler evs = .ok st

/-! ## Predicates and sample values used in the theorems about the scheduler -/

/-- What one accepted action does, by the goroutine that acts. -/
inductive Effect (st : State) (ev : Event) (st1 : State) : Prop where
  /-- A send on an enqueue channel (by a producer or a timer) appends to one queue. -/
  | enq (cmd : command) (hloop : st1.loop = st.loop) (hw : st1.watcher = st.watcher)
      (hd : st1.dispatched = st.dispatched) (ha : st1.armed = st.armed)
      (hlog : st1.logged = st.logged)
      (hq : (st1.s.queue.queued = st.s.queue.queued ++ [cmd] ∧
              st1.s.priorityQueue = st.s.priorityQueue) ∨
            (st1.s.priorityQueue.queued = st.s.priorityQueue.queued ++ [cmd] ∧
              st1.s.queue = st.s.queue))
      (ht : (∃ ch, ev = .send ch cmd ∧ st1.timers = st.timers) ∨
            (∃ i ch, ev = .timer i ∧ st.timers.get? i = some (ch, cmd) ∧
              st1.timers = st.timers.eraseIdx i))
  /-- The watcher moves; nothing else changes. -/
  | watch (hloop : st1.loop = st.loop) (hs : st1.s = st.s)
      (hd : st1.dispatched = st.dispatched) (ha : st1.armed = st.armed)
      (ht : st1.timers = st.timers) (hlog : st1.logged = st.logged)
      (hev : ev = .watcherTest ∨ ev = .abortRecv ∨ ev = .watcherWake)
  /-- The test of line 102. -/
  | test (hev : ev = .loopTest) (h0 : st.loop = .top)
      (hloop : st1.loop =
        if Len st.s.priorityQueue.queued > 0 then .recvPriority else .select)
      (hw : st1.watcher = st.watcher) (hs : st1.s = st.s)
      (hd : st1.dispatched = st.dispatched) (ha : st1.armed = st.armed)
      (ht : st1.timers = st.timers) (hlog : st1.logged = st.logged)
  /-- A command is received from the priority queue and its send begins. -/
  | takePriority (cmd : command)
      (hev : (ev = .loopRecvPriority ∧ st.loop = .recvPriority) ∨
             (ev = .loopSelect .priorityQueue ∧ st.loop = .select))
      (hloop : st1.loop = .sending cmd none)
      (hw : st1.watcher = st.watcher)
      (hp : st.s.priorityQueue.queued = cmd :: st1.s.priorityQueue.queued)
      (hq : st1.s.queue = st.s.queue)
      (hd : st1.dispatched = st.dispatched ++ [⟨cmd, .priorityQueue, none⟩])
      (ha : st1.armed = st.armed) (ht : st1.timers = st.timers)
      (hlog : st1.logged = st.logged)
  /-- A command is received from the normal queue and its send begins. -/
  | takeNormal (cmd : command)
      (hev : ev = .loopSelect .queue) (h0 : st.loop = .select)
      (hloop : st1.loop = .sending cmd (some st.abort))
      (hw : st1.watcher = st.watcher)
      (hq : st.s.queue.queued = cmd :: st1.s.queue.queued)
      (hp : st1.s.priorityQueue = st.s.priorityQueue)
      (hd : st1.dispatched = st.dispatched ++ [⟨cmd, .queue, some st.abort⟩])
      (ha : st1.armed = st.armed) (ht : st1.timers = st.timers)
      (hlog : st1.logged = st.logged)
  /-- The send returns, and reschedule is called when the interval is positive. -/
  | done (cmd : command) (a : Option Chan) (err : Bool)
      (hev : ev = .sendReturn err) (h0 : st.loop = .sending cmd a)
      (hloop : st1.loop = .top) (hw : st1.watcher = st.watcher) (hs : st1.s = st.s)
      (hd : st1.dispatched = st.dispatched)
      (ha : st1.armed = st.armed ++ if 0 < cmd.interval then [(st.s.schedule, cmd)] else [])
      (ht : st1.timers =
        st.timers ++ if 0 < cmd.interval then [(st.s.schedule, cmd)] else [])
      (hlog : st1.logged = if err then st.logged + 1 else st.logged)

def completed (st : State) : List Dispatch :=
  match st.loop with
  | .sending _ _ => st.dispatched.dropLast
  | _ => st.dispatched

def recurring (l : List Dispatch) : List command :=
  (l.filter fun d => decide (0 < d.cmd.interval)).map fun d => d.cmd

/-- The channels of a scheduler made by `startNewScheduler`, which no action changes,
and the channel every waiting `reschedule` goroutine sends on. -/
def Wired (st : State) : Prop :=
  st.s.schedule = 0 ∧ st.s.priority = 2 ∧ st.s.queue.enqueue = 0 ∧
    st.s.priorityQueue.enqueue = 2 ∧ st.abort = 4 ∧ ∀ t ∈ st.timers, t.1 = 0

/-- A one-shot command. -/
def sampleOnce : command := ⟨"owo pray", true, 0⟩

/-- A recurring command (20 s). -/
def sampleRecurring : command := ⟨"owo hunt", true, 20000000000⟩

/-- A fresh scheduler after a recurring command was submitted on `s.priority` and a
one-shot command on `s.schedule`. -/
def sampleLoaded : State :=
  { startNewScheduler with
    s := { startNewScheduler.s with
      priorityQueue := { startNewScheduler.s.priorityQueue with queued := [sampleRecurring] }
      queue := { startNewScheduler.s.queue with queued := [sampleOnce] } } }

/-- A reachable state in which the loop is sending a recurring command that it
received from the priority queue. -/
def samplePrioritySending : State :=
  { sampleLoaded with
    s := { sampleLoaded.s with
      priorityQueue := { sampleLoaded.s.priorityQueue with queued := [] } }
    loop := .sending sampleRecurring none
    dispatched := [⟨sampleRecurring, .priorityQueue, none⟩] }

/-- Every recorded dispatch carries the abort argument of its origin. -/
def AbortByOrigin (st : State) : Prop :=
  ∀ d ∈ st.dispatched,
    (d.origin = .priorityQueue → d.abortArg = none) ∧
    (d.origin = .queue → d.abortArg = some st.abort)

/-- The invariant behind C5: a send in progress is the last recorded dispatch, and
the `reschedule` calls so far are exactly the recurring commands among the sends
that have returned. -/
def ArmedInv (st : State) : Prop :=
  (∀ cmd a, st.loop = .sending cmd a → ∃ pre o, st.dispatched = pre ++ [⟨cmd, o, a⟩]) ∧
    st.armed = (recurring (completed st)).map fun c => (st.s.schedule, c)

/-- An action by which the dispatch loop receives a command and calls `sendMessage`. -/
def startsSend : Event → Bool
  | .loopRecvPriority => true
  | .loopSelect _ => true
  | _ => false

/-- An action by which a call of `sendMessage` returns. -/
def endsSend : Event → Bool
  | .sendReturn _ => true
  | _ => false

/-- The number of `sendMessage` calls begun in a sequence of actions. -/
def sendsStarted (evs : List Event) : Nat := (evs.filter startsSend).length

/-- The number of `sendMessage` calls that returned in a sequence of actions. -/
def sendsReturned (evs : List Event) : Nat := (evs.filter endsSend).length

/-- The number of commands the scheduler is sending: 1 inside `sendMessage`, else 0. -/
def inFlight (st : State) : Nat :=
  match st.loop with
  | .sending _ _ => 1
  | _ => 0

/-- The sends of producers in a sequence of actions: channel and command, in order. -/
def submitted : List Event → List (Chan × command)
  | [] => []
  | .send ch cmd :: evs => (ch, cmd) :: submitted evs
  | _ :: evs => submitted evs

/-- The record of a command received from the priority queue and sent with nil. -/
def asPriority (p : command) : Dispatch := ⟨p, .priorityQueue, none⟩

/-- One full iteration of the dispatch loop through line 103: test, receive, and the
return of the send without error. -/
def priorityCycle : List Event := [.loopTest, .loopRecvPriority, .sendReturn false]

/-- The run in which the commands `ps` are sent on `s.priority` in order and the loop
then makes one iteration for each. -/
def priorityOnlyRun (ps : List command) : List Event :=
  ps.map (fun p => Event.send 2 p) ++ (ps.map fun _ => priorityCycle).flatten

/-- The invariant behind C12, for a scheduler to which only the commands `sub` have been
submitted, all on `s.priority` and none of them recurring: what was sent followed by
what waits in the priority queue is `sub`, and the normal queue and the timers are
empty. -/
def PriorityOnly (st : State) (sub : List command) : Prop :=
  st.s.queue.enqueue = 0 ∧ st.s.priorityQueue.enqueue = 2 ∧
    st.dispatched ++ st.s.priorityQueue.queued.map asPriority = sub.map asPriority ∧
    st.s.queue.queued = [] ∧ st.timers = [] ∧ (∀ p ∈ sub, p.interval ≤ 0) ∧
    (∀ cmd a, st.loop = .sending cmd a → cmd.interval ≤ 0)

/-- Three one-shot commands. -/
def sampleThree : List command :=
  [⟨"P1", false, 0⟩, ⟨"P2", false, 0⟩, ⟨"P3", false, 0⟩]

/-- An action of the watcher goroutine. -/
def isWatcherEvent : Event → Bool
  | .watcherTest => true
  | .abortRecv => true
  | .watcherWake => true
  | _ => false

/-- A run in which the watcher decides to raise the abort while a priority command
waits, the loop then sends that command and, the priority queue now empty, takes a
command from the normal queue. -/
def staleAbortRun : List Event :=
  [.send 2 ⟨"P1", false, 0⟩, .watcherTest, .loopTest, .loopRecvPriority, .sendReturn false,
    .send 0 sampleOnce, .loopTest, .loopSelect .queue]

/-- The state at the end of `staleAbortRun`: the priority queue is empty, the loop is
sending a normal-queue command with the abort channel, and the watcher is still
blocked in `abort <- true`. -/
def staleAbortState : State :=
  { s :=
      { schedule := 0, priority := 2
        priorityQueue := { enqueue := 2, dequeue := 3, queued := [] }
        queue := { enqueue := 0, dequeue := 1, queued := [] } }
    abort := 4
    loop := .sending sampleOnce (some 4)
    watcher := .sendAbort
    timers := []
    dispatched := [⟨⟨"P1", false, 0⟩, .priorityQueue, none⟩, ⟨sampleOnce, .queue, some 4⟩]
    armed := []
    logged := 0 }

/-- A reachable state in which the loop waits in the receive of line 103 and each queue
holds one command. -/
def sampleAtRecv : State := { sampleLoaded with loop := .recvPriority }

/-- A reachable state in which the loop waits in the select of lines 111-114 and each
queue holds one command: the priority command arrived after the test of line 102. -/
def sampleAtSelect : State := { sampleLoaded with loop := .select }

/-! ## The coordinator, action by action

In `startNewQueue` a receive on `q.enqueue` (lines 65, 70) and the `PushBack` after it
(lines 66, 71) are two actions of the coordinator goroutine, and so are the send on
`q.dequeue` (line 72) and the `Remove` after it (line 73).  The dispatch loop and the
watcher read `s.priorityQueue.queued.Len()` (lines 102, 93) from their own goroutines
with no synchronisation, so such a read can fall between the two.  The definitions
below split `step` accordingly: `step` is the case in which a coordinator runs its
list operation before any other goroutine acts.  A read of the length is one action
and yields the length of the list before or after a list operation. -/

/-- Where the coordinator goroutine of a queue (lines 63-75) stands: at the top of its
loop, where it waits in the receive of line 65 or in the select of line 69;
between a receive on `q.enqueue` and the `PushBack` of `cmd`; or between the send
on `q.dequeue` and the `Remove`. -/
inductive CoordPc where
  | ready
  | pushing (cmd : command)
  | removing
deriving DecidableEq, Repr

/-- The actions of a coordinator: its receive on `q.enqueue` completes, its send on
`q.dequeue` completes, or it runs the list operation it stands before. -/
inductive CoordEvent where
  | enqueue (cmd : command)
  | dequeue
  | proceed
deriving DecidableEq, Repr

/-- One action of the coordinator goroutine of `startNewQueue`.  The result carries
the backing list, the new position and the command handed out, if any.  The
hand-off of line 72 leaves the list as it is; line 73 removes the front. -/
def coordinatorFine (q : queue) : CoordPc → CoordEvent →
    Offer (queue × CoordPc × Option command)
  | .pushing cmd, .proceed => .ok ({ q with queued := PushBack q.queued cmd }, .ready, none)
  | .pushing _, _ => .blocked
  | .removing, .proceed => .ok ({ q with queued := RemoveFront q.queued }, .ready, none)
  | .removing, _ => .blocked
  | .ready, ev =>
    if Len q.queued = 0 then
      match ev with
      | .enqueue cmd => .ok (q, .pushing cmd, none)
      | _ => .blocked
    else
      match Front q.queued with
      | none => .panic
      | some front =>
        match ev with
        | .enqueue cmd => .ok (q, .pushing cmd, none)
        | .dequeue => .ok (q, .removing, some front)
        | .proceed => .blocked

/-- The scheduler with the position of each coordinator: `priorityPc` for the one of
`s.priorityQueue`, `queuePc` for the one of `s.queue`. -/
structure FineState where
  st : State
  priorityPc : CoordPc
  queuePc : CoordPc
deriving DecidableEq, Repr

/-- The atomic actions of the scheduler when the coordinators act on their own: an
action of the loop, the watcher, a producer or a timer, or the list operation of
the coordinator of one queue. -/
inductive FineEvent where
  | act (ev : Event)
  | coord (o : Origin)
deriving DecidableEq, Repr

/-- The state right after `startNewScheduler`, both coordinators at the top of their
loop. -/
def startFine : FineState :=
  { st := startNewScheduler, priorityPc := .ready, queuePc := .ready }

/-- A value sent on channel `ch` is received by the coordinator of the queue whose
`enqueue` channel it is, which then stands before its `PushBack`. -/
def deliverFine (fs : FineState) (ch : Chan) (cmd : command) : Offer FineState :=
  if ch = fs.st.s.queue.enqueue then
    (coordinatorFine fs.st.s.queue fs.queuePc (.enqueue cmd)).bind fun r =>
      .ok { fs with st := { fs.st with s := { fs.st.s with queue := r.1 } }, queuePc := r.2.1 }
  else if ch = fs.st.s.priorityQueue.enqueue then
    (coordinatorFine fs.st.s.priorityQueue fs.priorityPc (.enqueue cmd)).bind fun r =>
      .ok { fs with
        st := { fs.st with s := { fs.st.s with priorityQueue := r.1 } }
        priorityPc := r.2.1 }
  else .blocked

/-- The receive `<-q.dequeue` for the queue of the given field: its coordinator hands
out the front and then stands before its `Remove`. -/
def receiveFine (fs : FineState) : Origin → Offer (FineState × command)
  | .priorityQueue =>
    (coordinatorFine fs.st.s.priorityQueue fs.priorityPc .dequeue).bind fun r =>
      match r.2.2 with
      | some cmd =>
        .ok ({ fs with
          st := { fs.st with s := { fs.st.s with priorityQueue := r.1 } }
          priorityPc := r.2.1 }, cmd)
      | none => .blocked
  | .queue =>
    (coordinatorFine fs.st.s.queue fs.queuePc .dequeue).bind fun r =>
      match r.2.2 with
      | some cmd =>
        .ok ({ fs with
          st := { fs.st with s := { fs.st.s with queue := r.1 } }
          queuePc := r.2.1 }, cmd)
      | none => .blocked

/-- An action that involves no coordinator: the tests of lines 102 and 93, which read
the length of the list as it is, the return of a send with the call of
`reschedule`, and the other actions of the watcher. -/
def liftStep (fs : FineState) (ev : Event) : Offer FineState :=
  (step fs.st ev).bind fun st1 => .ok { fs with st := st1 }

/-- One atomic action, the coordinators acting on their own. -/
def stepFine (fs : FineState) : FineEvent → Offer FineState
  | .coord .priorityQueue =>
    (coordinatorFine fs.st.s.priorityQueue fs.priorityPc .proceed).bind fun r =>
      .ok { fs with
        st := { fs.st with s := { fs.st.s with priorityQueue := r.1 } }
        priorityPc := r.2.1 }
  | .coord .queue =>
    (coordinatorFine fs.st.s.queue fs.queuePc .proceed).bind fun r =>
      .ok { fs with st := { fs.st with s := { fs.st.s with queue := r.1 } }, queuePc := r.2.1 }
  | .act (.send ch cmd) => deliverFine fs ch cmd
  | .act (.timer i) =>
    match fs.st.timers.get? i with
    | none => .blocked
    | some t =>
      (deliverFine fs t.1 t.2).bind fun fs1 =>
        .ok { fs1 with st := { fs1.st with timers := fs.st.timers.eraseIdx i } }
  | .act .loopRecvPriority =>
    match fs.st.loop with
    | .recvPriority =>
      (receiveFine fs .priorityQueue).bind fun r =>
        .ok { r.1 with st := enterSend r.1.st r.2 .priorityQueue none }
    | _ => .blocked
  | .act (.loopSelect arm) =>
    match fs.st.loop with
    | .select =>
      match arm with
      | .priorityQueue =>
        (receiveFine fs .priorityQueue).bind fun r =>
          .ok { r.1 with st := enterSend r.1.st r.2 .priorityQueue none }
      | .queue =>
        (receiveFine fs .queue).bind fun r =>
          .ok { r.1 with st := enterSend r.1.st r.2 .queue (some fs.st.abort) }
    | _ => .blocked
  | .act .loopTest => liftStep fs .loopTest
  | .act (.sendReturn err) => liftStep fs (.sendReturn err)
  | .act .watcherTest => liftStep fs .watcherTest
  | .act .abortRecv => liftStep fs .abortRecv
  | .act .watcherWake => liftStep fs .watcherWake

/-- The scheduler run over a sequence of actions, the coordinators acting on their
own. -/
def runFine (fs : FineState) : List FineEvent → Offer FineState
  | [] => .ok fs
  | ev :: evs => (stepFine fs ev).bind fun fs1 => runFine fs1 evs

/-- The commands a queue holds and has not handed out: its list, less the front when
the coordinator stands between the hand-off of line 72 and the `Remove` of line
73. -/
def pendingIn (q : queue) : CoordPc → List command
  | .removing => RemoveFront q.queued
  | _ => q.queued

/-- The list operation the coordinator of the priority queue has to finish, if any,
before it can hand out a command. -/
def settle : CoordPc → List FineEvent
  | .ready => []
  | _ => [.coord .priorityQueue]

/-- The command a coordinator has received on `q.enqueue` and not yet pushed. -/
def arrived : CoordPc → List command
  | .pushing cmd => [cmd]
  | _ => []

/-- A one-shot command for the priority queue. -/
def sampleFirst : command := ⟨"P1", false, 0⟩

/-- Another one-shot command for the priority queue. -/
def sampleSecond : command := ⟨"P2", false, 0⟩

/-- A run up to the start of the second iteration of the dispatch loop: `P1` is
submitted on `s.priority`, the loop receives it in line 103 and its send returns,
and the coordinator of the priority queue has not yet run the `Remove` of line
73. -/
def staleRun : List FineEvent :=
  [.act (.send 2 sampleFirst), .coord .priorityQueue, .act .loopTest, .act .loopRecvPriority,
    .act (.sendReturn false)]

/-- The state at the end of `staleRun`: the loop stands before the test of line 102 and
the list of the priority queue still holds `P1`, which has been sent. -/
def staleStart : FineState :=
  { st := { startNewScheduler with
      s := { startNewScheduler.s with
        priorityQueue := { startNewScheduler.s.priorityQueue with queued := [sampleFirst] } }
      dispatched := [⟨sampleFirst, .priorityQueue, none⟩] }
    priorityPc := .removing
    queuePc := .ready }

/-- The iteration that begins at `staleStart`, up to its receive: the loop reads length 1
in line 102, the coordinator runs its `Remove`, and a command is submitted on
`s.schedule`. -/
def staleIteration : List FineEvent :=
  [.act .loopTest, .coord .priorityQueue, .act (.send 0 sampleOnce), .coord .queue]

/-- The state at the end of `staleIteration`: the loop waits in the receive of line 103,
the priority queue is empty and the normal queue holds a command. -/
def staleBlocked : FineState :=
  { st := { startNewScheduler with
      s := { startNewScheduler.s with
        queue := { startNewScheduler.s.queue with queued := [sampleOnce] } }
      loop := .recvPriority
      dispatched := [⟨sampleFirst, .priorityQueue, none⟩] }
    priorityPc := .ready
    queuePc := .ready }

/-- A state at the start of an iteration in which the list of the priority queue holds
`P1`, already handed out, and `P2` behind it, and the normal queue holds a
command. -/
def stalePending : FineState :=
  { st := { startNewScheduler with
      s := { startNewScheduler.s with
        priorityQueue :=
          { startNewScheduler.s.priorityQueue with queued := [sampleFirst, sampleSecond] }
        queue := { startNewScheduler.s.queue with queued := [sampleOnce] } }
      dispatched := [⟨sampleFirst, .priorityQueue, none⟩] }
    priorityPc := .removing
    queuePc := .ready }

/-- The invariant behind C2, from a state `fs0` at the start of an iteration with `c` the
oldest command the priority queue has not handed out: either the loop has not
received a command since, `c` is still that oldest command and the normal queue
has lost none; or the first command received since is `c`, from the priority
queue, and as long as it is the only one the normal queue has lost none. -/
def FirstIsPriority (fs0 : FineState) (c : command) (fs : FineState) : Prop :=
  ((fs.st.loop = .top ∨ fs.st.loop = .recvPriority) ∧
      (∃ r, pendingIn fs.st.s.priorityQueue fs.priorityPc = c :: r) ∧
      fs.st.dispatched = fs0.st.dispatched ∧
      pendingIn fs0.st.s.queue fs0.queuePc <+: pendingIn fs.st.s.queue fs.queuePc) ∨
  (∃ more, fs.st.dispatched = fs0.st.dispatched ++ ⟨c, .priorityQueue, none⟩ :: more ∧
      (more = [] →
        pendingIn fs0.st.s.queue fs0.queuePc <+: pendingIn fs.st.s.queue fs.queuePc))

/-- A reachable state in which the loop is sending a one-shot command that it received
from the normal queue in the select, while a command waits in the priority queue. -/
def sampleNormalSending : State :=
  { sampleLoaded with
    s := { sampleLoaded.s with queue := { sampleLoaded.s.queue with queued := [] } }
    loop := .sending sampleOnce (some 4)
    dispatched := [⟨sampleOnce, .queue, some 4⟩] }

end Dankgrinder

namespace ConfigPkg

/-! ## config/config.go: types -/

/-- The constant `ShiftStateActive`. -/
def ShiftStateActive : String := "active"

/-- The constant `ShiftStateDormant`. -/
def ShiftStateDormant : String := "dormant"

/-- The struct `Duration` of config.go (lines 126-129). -/
structure Duration where
  Base : Int
  Variation : Int
deriving DecidableEq, Repr

/-- The struct `Shift` (lines 119-122). -/
structure Shift where
  State : String
  Duration : Duration
deriving DecidableEq, Repr

/-- The struct `Commands` (lines 97-100). -/
structure Commands where
  Pray : Bool
  Hunt : Bool
deriving DecidableEq, Repr

/-- The struct `CustomCommand` (lines 84-89). -/
structure CustomCommand where
  Value : String
  Interval : Int
  Amount : Int
  PauseBelowBalance : Int
deriving DecidableEq, Repr

/-- The struct `AutoSell` (lines 91-95). -/
structure AutoSell where
  Enable : Bool
  Interval : Int
  Items : List String
deriving DecidableEq, Repr

/-- The struct `AutoShare` (lines 77-82).  Modelled from the spec: the field `Amount`,
which validateFeatures reads (validate.go line 67), is not in the declaration of
config.go; it is taken to be an `int` like the neighbouring fields. -/
structure AutoShare where
  Enable : Bool
  Fund : Bool
  MaximumBalance : Int
  MinimumBalance : Int
  Amount : Int
deriving DecidableEq, Repr

/-- The struct `Features` (lines 67-75). -/
structure Features where
  Commands : Commands
  CustomCommands : List CustomCommand
  AutoSell : AutoSell
  AutoShare : AutoShare
  LogToFile : Bool
  VerboseLogToStdout : Bool
  Debug : Bool
deriving DecidableEq, Repr

/-- The struct `Typing` (lines 107-111). -/
structure Typing where
  Base : Int
  Speed : Int
  Variation : Int
deriving DecidableEq, Repr

/-- The struct `MessageDelay` (lines 113-116). -/
structure MessageDelay where
  Base : Int
  Variation : Int
deriving DecidableEq, Repr

/-- The struct `SuspicionAvoidance` (lines 102-105). -/
structure SuspicionAvoidance where
  Typing : Typing
  MessageDelay : MessageDelay
deriving DecidableEq, Repr

/-- The struct `Instance` of package config (lines 34-40). -/
structure Instance where
  Token : String
  ChannelID : String
  Features : Features
  SuspicionAvoidance : SuspicionAvoidance
  Shifts : List Shift
deriving DecidableEq, Repr

/-- The struct `Cluster` (lines 29-32). -/
structure Cluster where
  Master : Instance
  Instances : List Instance
deriving DecidableEq, Repr

/-- The struct `Cooldown` (lines 62-65).  Modelled from the spec: the fields `Share`
and `Sell`, which validateCompat (validate.go line 105) and newAutoSellChain
(commands.go line 71) read, are not in the declaration of config.go; they are
taken to be `int` like `Hunt` and `Pray`. -/
structure Cooldown where
  Hunt : Int
  Pray : Int
  Share : Int
  Sell : Int
deriving DecidableEq, Repr

/-- The struct `Compat` (lines 57-60). -/
structure Compat where
  Cooldown : Cooldown
  AwaitResponseTimeout : Int
deriving DecidableEq, Repr

/-- The struct `Config` (lines 21-27).  The map `Clusters` is the list of its entries
in the order in which a `range` over it visits them. -/
structure Config where
  Clusters : List (String × Cluster)
  Shifts : List Shift
  Features : Features
  Compat : Compat
  SuspicionAvoidance : SuspicionAvoidance
deriving DecidableEq, Repr

/-! ## config/validate.go

An `error` is `Option String`: `none` is nil, `some msg` an error with that message. -/

/-- The function `strings.Contains`: `substr` occurs in `s`. -/
def stringsContains (s substr : String) : Bool := decide (substr.data <:+: s.data)

/-- The function `isValidID` (lines 114-116): the regular expression `^[0-9]+$`
matches exactly the texts that are one or more of the characters 0 to 9. -/
def isValidID (id : String) : Bool :=
  !id.data.isEmpty && id.data.all fun ch => decide ('0' ≤ ch ∧ ch ≤ '9')

/-- The loop of validateFeatures over the custom commands (lines 72-85), from index
`i` on. -/
def validateCustomCommands : Nat → List CustomCommand → Option String
  | _, [] => none
  | i, cmd :: rest =>
    if cmd.Value = "" then
      some ("features.custom_commands[" ++ toString i ++ "].value: no value")
    else if stringsContains cmd.Value "owo hunt" then
      some ("invalid custom command value: " ++ cmd.Value ++
        ", this custom command is disallowed, use auto-gift instead")
    else if stringsContains cmd.Value "owoh" then
      some ("invalid custom command value: " ++ cmd.Value ++
        ", this custom command is disallowed, use auto-sell instead")
    else if cmd.Amount < 0 then
      some ("features.custom_commands[" ++ toString i ++
        "].amount: value must be greater than or equal to 0")
    else validateCustomCommands (i + 1) rest

/-- The function `validateFeatures` (lines 57-87). -/
def validateFeatures (features : Features) : Option String :=
  let autoSell : Option String :=
    if features.AutoSell.Enable then
      if features.AutoSell.Interval < 0 then
        some "auto-sell interval must be greater than or equal to 0"
      else if features.AutoSell.Items.length = 0 then
        some "auto-sell enabled but no items configured"
      else none
    else none
  match autoSell with
  | some err => some err
  | none =>
    let autoShare : Option String :=
      if features.AutoShare.Enable then
        if features.AutoShare.Amount ≤ 0 then some "auto-share amount must be greater than 0"
        else none
      else none
    match autoShare with
    | some err => some err
    | none => validateCustomCommands 0 features.CustomCommands

/-- The function `validateShifts` (lines 89-96). -/
def validateShifts : List Shift → Option String
  | [] => none
  | shift :: rest =>
    if shift.State ≠ ShiftStateActive ∧ shift.State ≠ ShiftStateDormant then
      some ("invalid shift state: " ++ shift.State)
    else validateShifts rest

/-- The function `validateCompat` (lines 98-112). -/
def validateCompat (compat : Compat) : Option String :=
  if compat.Cooldown.Pray ≤ 0 then some "pray cooldown must be greater than 0"
  else if compat.Cooldown.Hunt ≤ 0 then some "hunt cooldown must be greater than 0"
  else if compat.Cooldown.Share ≤ 0 then some "share cooldown must be greater than 0"
  else if compat.AwaitResponseTimeout < 0 then
    some "await response timeout must be greater than 0"
  else none

/-- The function `validateInstance` (lines 35-55). -/
def validateInstance (instance_ : Instance) : Option String :=
  if instance_.Token = "" then some "no token"
  else if instance_.ChannelID = "" then some "no channel id"
  else if !isValidID instance_.ChannelID then some "invalid channel id"
  else if instance_.Shifts.length = 0 then some "no shifts"
  else
    match validateFeatures instance_.Features with
    | some err => some err
    | none =>
      match validateShifts instance_.Shifts with
      | some err => some err
      | none => none

/-- The inner loop of Validate over `cluster.Instances` (lines 23-27), from index `i`. -/
def validateInstances (ck : String) : Nat → List Instance → Option String
  | _, [] => none
  | i, instance_ :: rest =>
    match validateInstance instance_ with
    | some err => some ("clusters[" ++ ck ++ "].instances[" ++ toString i ++ "]: " ++ err)
    | none => validateInstances ck (i + 1) rest

/-- The outer loop of Validate over `c.Clusters` (lines 19-28). -/
def validateClusters : List (String × Cluster) → Option String
  | [] => none
  | (ck, cluster) :: rest =>
    match validateInstance cluster.Master with
    | some err => some ("clusters[" ++ ck ++ "].master: " ++ err)
    | none =>
      match validateInstances ck 0 cluster.Instances with
      | some err => some err
      | none => validateClusters rest

/-- The method `Config.Validate` (lines 15-33). -/
def Config.Validate (c : Config) : Option String :=
  if c.Clusters.length = 0 then some "clusters: no clusters, at least 1 is required"
  else
    match validateClusters c.Clusters with
    | some err => some err
    | none =>
      match validateCompat c.Compat with
      | some err => some err
      | none => none

/-! ## Predicates and sample values used in the theorems about validation -/

/-- A custom command that passes the checks of validateFeatures. -/
def WellFormed (cmd : CustomCommand) : Prop :=
  cmd.Value ≠ "" ∧ stringsContains cmd.Value "owo hunt" = false ∧
    stringsContains cmd.Value "owoh" = false ∧ 0 ≤ cmd.Amount

/-- Features with one custom command. -/
def sampleFeatures : Features :=
  { Commands := { Pray := true, Hunt := true }
    CustomCommands := [{ Value := "owo zoo", Interval := 60, Amount := 3,
                         PauseBelowBalance := 100 }]
    AutoSell := { Enable := false, Interval := 0, Items := [] }
    AutoShare := { Enable := false, Fund := false, MaximumBalance := 0,
                   MinimumBalance := 0, Amount := 0 }
    LogToFile := false
    VerboseLogToStdout := false
    Debug := false }

/-- An instance with a token, a numeric channel id, one active shift and the sample
features. -/
def sampleMaster : Instance :=
  { Token := "token"
    ChannelID := "1234"
    Features := sampleFeatures
    SuspicionAvoidance :=
      { Typing := { Base := 0, Speed := 450, Variation := 0 }
        MessageDelay := { Base := 0, Variation := 0 } }
    Shifts := [{ State := "active", Duration := { Base := 3600, Variation := 0 } }] }

/-- A compatibility section with positive cooldowns and the await response timeout
left at 0, the value of a field the configuration file does not set. -/
def sampleCompat : Compat :=
  { Cooldown := { Hunt := 15, Pray := 300, Share := 5, Sell := 5 }
    AwaitResponseTimeout := 0 }

/-- A configuration that Validate accepts: one cluster with the sample master and no
other instance. -/
def sampleConfig : Config :=
  { Clusters := [("main", { Master := sampleMaster, Instances := [] })]
    Shifts := sampleMaster.Shifts
    Features := sampleFeatures
    Compat := sampleCompat
    SuspicionAvoidance := sampleMaster.SuspicionAvoidance }

/-- One of the characters 0 to 9. -/
def isDigit (ch : Char) : Prop := '0' ≤ ch ∧ ch ≤ '9'

end ConfigPkg

namespace InstancePkg

/-! ## instance/commands.go -/

/-- A `*scheduler.Command`: nil, or the address of a command. -/
abbrev Ptr := Option Nat

/-- Modelled from the spec: the struct `Command` of package instance/scheduler is not
among the sources.  Its fields are the ones commands.go assigns, which are the
ones the spec lists for a command: content (`Value`), recurrence interval
(`Interval`, a time.Duration), quantity (`Amount`, a uint), response expectation
(`AwaitResume`), guard (`CondFunc`, a `func() bool`) and chain link (`Next`).
A guard reads the balance of the instance when it is called, so it is a function
of that balance; `none` is the nil func. -/
structure Command where
  Value : String
  Interval : Int
  Amount : Nat
  AwaitResume : Bool
  CondFunc : Option (Int → Bool)
  Next : Ptr

/-- The commands in memory, by address. -/
abbrev Heap := Nat → Command

/-- A run-time panic. -/
inductive Panic where
  | indexOutOfRange
  | nilDereference
deriving DecidableEq, Repr

/-- Modelled from the spec: the struct `Instance` of package instance is not among
the sources; these are the fields commands.go reads. -/
structure Instance where
  Features : ConfigPkg.Features
  Compat : ConfigPkg.Compat
  balance : Int

/-- The constant `prayCmdValue`. -/
def prayCmdValue : String := "owo pray"

/-- The constant `huntCmdValue`. -/
def huntCmdValue : String := "owo hunt"

/-- The constant `sellBaseCmdValue`. -/
def sellBaseCmdValue : String := "owo sell"

/-- A Go `int` or `int64`: a two's complement value of 64 bits. -/
def isInt (x : Int) : Prop := -(2 : Int) ^ 63 ≤ x ∧ x < (2 : Int) ^ 63

instance (x : Int) : Decidable (isInt x) := by
  unfold isInt
  infer_instance

/-- The result of an `int64` operation whose exact value is `x`: `x` wrapped into 64
bits. -/
def wrapInt64 (x : Int) : Int := (x + (2 : Int) ^ 63) % (2 : Int) ^ 64 - (2 : Int) ^ 63

/-- The conversion `uint(x)` of an `int`. -/
def uint (x : Int) : Nat := (x % (2 : Int) ^ 64).toNat

/-- The expression `time.Duration(x) * time.Second`, in nanoseconds. -/
def seconds (x : Int) : Int := wrapInt64 (x * 1000000000)

/-- The variable a closure in the body of a `for ... range` loop sees when it names the
loop variable: up to Go 1.21 the one variable of the loop, which holds the last
element once the loop is over; from Go 1.22 on the variable of its own iteration. -/
inductive LoopVar where
  | perLoop
  | perIteration
deriving DecidableEq, Repr

/-- The closure of lines 58-60 over the loop variable `cmd`, as a function of
`in.balance` at the time of the call. -/
def condFunc (cmd : ConfigPkg.CustomCommand) : Int → Bool :=
  fun balance => cmd.PauseBelowBalance == 0 || decide (balance ≥ cmd.PauseBelowBalance)

/-- The loop of newCmds over `in.Features.CustomCommands` (lines 50-62): one command
per custom command.  `seen` is what the closure reads as `cmd` when it is called
after the loop. -/
def newCustomCmds (sem : LoopVar) (customs : List ConfigPkg.CustomCommand) : List Command :=
  customs.map fun cmd =>
    let seen : ConfigPkg.CustomCommand :=
      match sem with
      | .perLoop => customs.getLast?.getD cmd
      | .perIteration => cmd
    { Value := cmd.Value
      Interval := seconds cmd.Interval
      Amount := uint cmd.Amount
      AwaitResume := false
      CondFunc := some (condFunc seen)
      Next := none }

/-- The method `newCmds` (lines 32-64): the structs it allocates, in the order of the
returned slice.  Line 48 of the source, `if in.Features.AutoSell`, is an unfinished
statement without a body; it appends no command. -/
def newCmds (sem : LoopVar) (inst : Instance) : List Command :=
  let cmds : List Command := []
  let cmds :=
    if inst.Features.Commands.Pray then
      cmds ++ [{ Value := prayCmdValue, Interval := seconds inst.Compat.Cooldown.Pray,
                 Amount := 0, AwaitResume := true, CondFunc := none, Next := none }]
    else cmds
  let cmds :=
    if inst.Features.Commands.Hunt then
      cmds ++ [{ Value := huntCmdValue, Interval := seconds inst.Compat.Cooldown.Hunt,
                 Amount := 0, AwaitResume := true, CondFunc := none, Next := none }]
    else cmds
  cmds ++ newCustomCmds sem inst.Features.CustomCommands

/-- The index expression `cmds[i]`. -/
def index (cmds : List Ptr) (i : Int) : Except Panic Ptr :=
  if 0 ≤ i then
    match cmds.get? i.toNat with
    | some p => .ok p
    | none => .error .indexOutOfRange
  else .error .indexOutOfRange

/-- An assignment through a pointer, `p.field = ...`, as the update `f` of the command
`p` points to; the panic, if any, comes with the heap left as it was. -/
def store (h : Heap) (p : Ptr) (f : Command → Command) : Option Panic × Heap :=
  match p with
  | none => (some .nilDereference, h)
  | some a => (none, Function.update h a (f (h a)))

/-- The assignment `cmds[i].field = ...` through the slice element `lhs`, which is
`cmds[i]` already evaluated: a failed index expression panics before anything is
written. -/
def assign (h : Heap) (lhs : Except Panic Ptr) (f : Command → Command) :
    Option Panic × Heap :=
  match lhs with
  | .ok p => store h p f
  | .error e => (some e, h)

/-- The body of the loop of newCmdChain (lines 82-88) for index `i`. -/
def newCmdChainBody (cmds : List Ptr) (chainInterval : Int) (i : Nat) (h : Heap) :
    Option Panic × Heap :=
  let r1 : Option Panic × Heap :=
    if i ≠ 0 then
      match index cmds i with
      | .ok v => assign h (index cmds ((i : Int) - 1)) fun c => { c with Next := v }
      | .error e => (some e, h)
    else (none, h)
  match r1 with
  | (some e, h1) => (some e, h1)
  | (none, h1) =>
    if (i : Int) = (cmds.length : Int) - 1 then
      let r2 : Option Panic × Heap :=
        match index cmds 0 with
        | .ok v => assign h1 (index cmds i) fun c => { c with Next := v }
        | .error e => (some e, h1)
      match r2 with
      | (some e, h2) => (some e, h2)
      | (none, h2) => assign h2 (index cmds i) fun c => { c with Interval := chainInterval }
    else (none, h1)

/-- The loop `for i := 0; i < len(cmds); i++` of newCmdChain, with `k` iterations
still to run from index `i`. -/
def newCmdChainLoop (cmds : List Ptr) (chainInterval : Int) :
    Nat → Nat → Heap → Option Panic × Heap
  | 0, _, h => (none, h)
  | k + 1, i, h =>
    match newCmdChainBody cmds chainInterval i h with
    | (some e, h1) => (some e, h1)
    | (none, h1) => newCmdChainLoop cmds chainInterval k (i + 1) h1

/-- The method `newCmdChain` (lines 80-91): the returned pointer or the panic, and the
heap it leaves. -/
def newCmdChain (cmds : List Ptr) (chainInterval : Int) (h : Heap) :
    Except Panic Ptr × Heap :=
  match newCmdChainLoop cmds chainInterval cmds.length 0 h with
  | (some e, h1) => (.error e, h1)
  | (none, h1) => (index cmds 0, h1)

/-! ## Predicates and sample values used in the theorems about newCmdChain -/

/-- A heap for the examples: every address holds a one-shot command without link. -/
def sampleHeap : Heap := fun a =>
  { Value := "owo sell " ++ toString a, Interval := 0, Amount := 0, AwaitResume := false,
    CondFunc := none, Next := none }

/-- The state of the heap after `m` iterations of the loop of newCmdChain on distinct
commands: the first `m - 1` links are made, the ring is closed and the interval
set once the last iteration has run, and no other interval has changed. -/
def ChainInv (addrs : List Nat) (I : Int) (h : Heap) (m : Nat) (hm : Heap) : Prop :=
  (∀ j a b, j + 1 < m → addrs[j]? = some a → addrs[j + 1]? = some b →
      (hm a).Next = some b) ∧
  (m = addrs.length → ∀ a b, addrs[addrs.length - 1]? = some a → addrs[0]? = some b →
      (hm a).Next = some b ∧ (hm a).Interval = I) ∧
  (∀ a, (m = addrs.length → addrs[addrs.length - 1]? ≠ some a) →
      (hm a).Interval = (h a).Interval)

/-- The parts of the heap newCmdChain has no business with: nothing but `Next` changes,
except `Interval` at the address of the last list entry. -/
def Untouched (last : Option Ptr) (h h1 : Heap) : Prop :=
  ∀ a, (h1 a).Value = (h a).Value ∧ (h1 a).Amount = (h a).Amount ∧
    (h1 a).AwaitResume = (h a).AwaitResume ∧ (h1 a).CondFunc = (h a).CondFunc ∧
    (last ≠ some (some a) → (h1 a).Interval = (h a).Interval)

/-! ## Sample values and helpers for the theorems about newCmds -/

/-- The command newCmds builds when `Commands.Pray` is set (lines 35-39). -/
def prayCmd (inst : Instance) : Command :=
  { Value := prayCmdValue, Interval := seconds inst.Compat.Cooldown.Pray, Amount := 0,
    AwaitResume := true, CondFunc := none, Next := none }

/-- The command newCmds builds when `Commands.Hunt` is set (lines 42-46). -/
def huntCmd (inst : Instance) : Command :=
  { Value := huntCmdValue, Interval := seconds inst.Compat.Cooldown.Hunt, Amount := 0,
    AwaitResume := true, CondFunc := none, Next := none }

/-- What the guard of the `i`-th command of a list answers when it is called with the
instance balance `balance`; `none` if there is no such command or it has no guard. -/
def guardOf (cmds : List Command) (i : Nat) (balance : Int) : Option Bool :=
  (cmds[i]?.bind fun c => c.CondFunc).map fun f => f balance

/-- Features with the given built-in commands and custom commands, everything else
off. -/
def featuresWith (pray hunt : Bool) (customs : List ConfigPkg.CustomCommand) :
    ConfigPkg.Features :=
  { ConfigPkg.sampleFeatures with
    Commands := { Pray := pray, Hunt := hunt }
    CustomCommands := customs }

/-- An instance with a balance of 50 and two custom commands: the first is to pause
below a balance of 100, the second has no threshold. -/
def sampleGuarded : Instance :=
  { Features := featuresWith false false
      [{ Value := "owo buy 1", Interval := 60, Amount := 1, PauseBelowBalance := 100 },
       { Value := "owo zoo", Interval := 60, Amount := 0, PauseBelowBalance := 0 }]
    Compat := ConfigPkg.sampleCompat
    balance := 50 }

/-- A compatibility section that validateCompat accepts, with a pray cooldown of
9223372037 seconds: that many nanoseconds exceed the largest time.Duration. -/
def sampleLongCooldown : ConfigPkg.Compat :=
  { Cooldown := { Hunt := 15, Pray := 9223372037, Share := 5, Sell := 5 }
    AwaitResponseTimeout := 0 }

/-- An instance with only the pray command and the long cooldown. -/
def sampleLongPray : Instance :=
  { Features := featuresWith true false []
    Compat := sampleLongCooldown
    balance := 0 }

/-! ## newAutoSellChain (lines 66-78) -/

/-- The function `sellCmdValue` (lines 22-24): `fmt.Sprintf("%v %v %v", ...)` of the
base value, the item and the amount. -/
def sellCmdValue (amount item : String) : String :=
  sellBaseCmdValue ++ " " ++ item ++ " " ++ amount

/-- The command newAutoSellChain allocates for one item (lines 69-72). -/
def sellCmd (inst : Instance) (item : String) : Command :=
  { Value := sellCmdValue "max" item, Interval := seconds inst.Compat.Cooldown.Sell,
    Amount := 0, AwaitResume := false, CondFunc := none, Next := none }

/-- The loop of newAutoSellChain over the items (lines 68-73): each `&scheduler.Command`
is a new object, at the first free address `next`; the addresses from `next` on are
the free ones.  The result is the slice of pointers in the order of the items, and
the heap. -/
def newAutoSellCmds (inst : Instance) : List String → Nat → Heap → List Ptr × Heap
  | [], _, h => ([], h)
  | item :: rest, next, h =>
    let r := newAutoSellCmds inst rest (next + 1) (Function.update h next (sellCmd inst item))
    (some next :: r.1, r.2)

/-- The method `newAutoSellChain` (lines 66-78), with the first free address `next`. -/
def newAutoSellChain (inst : Instance) (next : Nat) (h : Heap) : Except Panic Ptr × Heap :=
  let r := newAutoSellCmds inst inst.Features.AutoSell.Items next h
  newCmdChain r.1 (seconds inst.Features.AutoSell.Interval) r.2

/-- An instance whose auto-sell passes validateFeatures with two items. -/
def sampleAutoSell : Instance :=
  { Features := { ConfigPkg.sampleFeatures with
      AutoSell := { Enable := true, Interval := 600, Items := ["gem", "box"] } }
    Compat := ConfigPkg.sampleCompat
    balance := 0 }

/-- An instance whose auto-sell passes validateFeatures with an interval of 9223372037
seconds: that many nanoseconds exceed the largest time.Duration. -/
def sampleLongSell : Instance :=
  { Features := { ConfigPkg.sampleFeatures with
      AutoSell := { Enable := true, Interval := 9223372037, Items := ["gem"] } }
    Compat := ConfigPkg.sampleCompat
    balance := 0 }

end InstancePkg

/-! # Part 2: theorems -/

namespace Dankgrinder

/-! ## Queue coordinator: FIFO -/

theorem coordinatorRun_inv (evs : List QueueEvent) :
    ∀ (q : queue) (out : List command) (q1 : queue) (out1 : List command),
      coordinatorRun q out evs = some (q1, out1) →
        out1 ++ q1.queued = out ++ q.queued ++ accepted evs := by
  induction evs with
  | nil =>
    intro q out q1 out1 h
    simp [coordinatorRun] at h
    obtain ⟨rfl, rfl⟩ := h
    simp [accepted]
  | cons ev evs ih =>
    intro q out q1 out1 h
    cases ev with
    | enqueue cmd =>
      have hc : coordinator q (.enqueue cmd)
          = .ok ({ q with queued := PushBack q.queued cmd }, none) := by
        unfold coordinator
        cases hq : q.queued <;> simp [Len, Front]
      simp only [coordinatorRun, hc] at h
      have := ih _ _ _ _ h
      simp [this, accepted, PushBack]
    | dequeue =>
      cases hq : q.queued with
      | nil =>
        simp [coordinatorRun, coordinator, hq, Len] at h
      | cons c rest =>
        have hc : coordinator q .dequeue = .ok ({ q with queued := rest }, some c) := by
          simp [coordinator, hq, Len, Front, RemoveFront]
        simp only [coordinatorRun, hc] at h
        have := ih _ _ _ _ h
        simp [this, accepted]

/-- C1: for every sequence of enqueue and dequeue events handled by the coordinator of
a fresh queue, the commands handed out followed by the backing list are exactly
the accepted commands in acceptance order; so the commands handed out are an
initial segment of the accepted ones and the backing list is the rest. -/
theorem C1_queue_fifo (enq deq : Chan) (evs : List QueueEvent) (q : queue)
    (out : List command)
    (h : coordinatorRun (startNewQueue enq deq) [] evs = some (q, out)) :
    out ++ q.queued = accepted evs ∧ out <+: accepted evs ∧
      q.queued = (accepted evs).drop out.length := by
  have key := coordinatorRun_inv evs _ _ _ _ h
  simp [startNewQueue] at key
  refine ⟨key, ⟨q.queued, key⟩, ?_⟩
  rw [← key]
  simp

/-- C1 at a concrete interleaving: enqueue a, enqueue b, dequeue, enqueue c, dequeue. -/
theorem C1_queue_fifo_witness :
    coordinatorRun (startNewQueue 0 1) []
        [.enqueue ⟨"a", false, 0⟩, .enqueue ⟨"b", false, 0⟩, .dequeue,
          .enqueue ⟨"c", false, 0⟩, .dequeue]
      = some (⟨0, 1, [⟨"c", false, 0⟩]⟩, [⟨"a", false, 0⟩, ⟨"b", false, 0⟩]) ∧
    ([⟨"a", false, 0⟩, ⟨"b", false, 0⟩] : List command) ++ [⟨"c", false, 0⟩]
      = accepted [.enqueue ⟨"a", false, 0⟩, .enqueue ⟨"b", false, 0⟩, .dequeue,
          .enqueue ⟨"c", false, 0⟩, .dequeue] :=
  ⟨by decide,
    (C1_queue_fifo 0 1 _ ⟨0, 1, [⟨"c", false, 0⟩]⟩ [⟨"a", false, 0⟩, ⟨"b", false, 0⟩]
      (by decide)).1⟩

/-! ## Dispatch loop: priority, abort channel, recurrence -/

theorem coordinator_enqueue (q : queue) (cmd : command) :
    coordinator q (.enqueue cmd) = .ok ({ q with queued := q.queued ++ [cmd] }, none) := by
  unfold coordinator
  cases hq : q.queued <;> simp [Len, Front, PushBack]

theorem coordinator_dequeue (q : queue) :
    coordinator q .dequeue =
      match q.queued with
      | [] => .blocked
      | c :: rest => .ok ({ q with queued := rest }, some c) := by
  unfold coordinator
  cases hq : q.queued <;> simp [Len, Front, RemoveFront]

theorem receive_eq (q : queue) :
    receive q =
      match q.queued with
      | [] => .blocked
      | c :: rest => .ok ({ q with queued := rest }, c) := by
  unfold receive
  rw [coordinator_dequeue]
  cases hq : q.queued <;> simp [Offer.bind]

theorem deliver_eq (s : scheduler) (ch : Chan) (cmd : command) :
    deliver s ch cmd =
      if ch = s.queue.enqueue then
        .ok { s with queue := { s.queue with queued := s.queue.queued ++ [cmd] } }
      else if ch = s.priorityQueue.enqueue then
        .ok { s with priorityQueue :=
          { s.priorityQueue with queued := s.priorityQueue.queued ++ [cmd] } }
      else .blocked := by
  unfold deliver
  simp [coordinator_enqueue, Offer.bind]

theorem step_effect (st st1 : State) (ev : Event) (h : step st ev = .ok st1) :
    Effect st ev st1 ∧ st1.abort = st.abort ∧ st1.s.schedule = st.s.schedule ∧
      st1.s.priority = st.s.priority ∧ st1.s.queue.enqueue = st.s.queue.enqueue ∧
      st1.s.priorityQueue.enqueue = st.s.priorityQueue.enqueue := by
  cases ev <;> simp only [step, deliver_eq, receive_eq] at h
  case send ch cmd =>
    split_ifs at h <;> simp [Offer.bind] at h <;> subst h
    · exact ⟨.enq cmd rfl rfl rfl rfl rfl (.inl ⟨rfl, rfl⟩) (.inl ⟨ch, rfl, rfl⟩),
        rfl, rfl, rfl, rfl, rfl⟩
    · exact ⟨.enq cmd rfl rfl rfl rfl rfl (.inr ⟨rfl, rfl⟩) (.inl ⟨ch, rfl, rfl⟩),
        rfl, rfl, rfl, rfl, rfl⟩
  case timer i =>
    split at h
    · simp at h
    · rename_i t ht
      split_ifs at h <;> simp [Offer.bind] at h <;> subst h
      · exact ⟨.enq t.2 rfl rfl rfl rfl rfl (.inl ⟨rfl, rfl⟩)
          (.inr ⟨i, t.1, rfl, ht, rfl⟩), rfl, rfl, rfl, rfl, rfl⟩
      · exact ⟨.enq t.2 rfl rfl rfl rfl rfl (.inr ⟨rfl, rfl⟩)
          (.inr ⟨i, t.1, rfl, ht, rfl⟩), rfl, rfl, rfl, rfl, rfl⟩
  case loopTest =>
    split at h
    · rename_i h0
      split_ifs at h with hlen <;> simp at h <;> subst h
      · exact ⟨.test rfl h0 (by simp [hlen]) rfl rfl rfl rfl rfl rfl, rfl, rfl, rfl, rfl, rfl⟩
      · exact ⟨.test rfl h0 (by simp [hlen]) rfl rfl rfl rfl rfl rfl, rfl, rfl, rfl, rfl, rfl⟩
    · simp at h
  case loopRecvPriority =>
    split at h
    · rename_i h0
      split at h <;> simp [Offer.bind, enterSend] at h
      rename_i c rest hq
      subst h
      exact ⟨.takePriority c (.inl ⟨rfl, h0⟩) rfl rfl hq rfl rfl rfl rfl rfl,
        rfl, rfl, rfl, rfl, rfl⟩
    · simp at h
  case loopSelect arm =>
    split at h
    · rename_i h0
      cases arm <;> simp only at h
      · split at h <;> simp [Offer.bind, enterSend] at h
        rename_i c rest hq
        subst h
        exact ⟨.takePriority c (.inr ⟨rfl, h0⟩) rfl rfl hq rfl rfl rfl rfl rfl,
          rfl, rfl, rfl, rfl, rfl⟩
      · split at h <;> simp [Offer.bind, enterSend] at h
        rename_i c rest hq
        subst h
        exact ⟨.takeNormal c rfl h0 rfl rfl hq rfl rfl rfl rfl rfl,
          rfl, rfl, rfl, rfl, rfl⟩
    · simp at h
  case sendReturn err =>
    split at h
    · rename_i cmd a h0
      by_cases hi : cmd.interval > 0 <;> cases err <;> simp [hi] at h <;> subst h <;>
        exact ⟨.done cmd a _ rfl h0 rfl rfl rfl rfl (by simp [hi, reschedule])
          (by simp [hi, reschedule]) (by simp), rfl, rfl, rfl, rfl, rfl⟩
    · simp at h
  case watcherTest =>
    split at h
    · split_ifs at h <;> simp at h <;> subst h <;>
        exact ⟨.watch rfl rfl rfl rfl rfl rfl (.inl rfl), rfl, rfl, rfl, rfl, rfl⟩
    · simp at h
  case abortRecv =>
    split at h
    · split_ifs at h
      simp at h
      subst h
      exact ⟨.watch rfl rfl rfl rfl rfl rfl (.inr (.inl rfl)), rfl, rfl, rfl, rfl, rfl⟩
    · simp at h
  case watcherWake =>
    split at h
    · simp at h
      subst h
      exact ⟨.watch rfl rfl rfl rfl rfl rfl (.inr (.inr rfl)), rfl, rfl, rfl, rfl, rfl⟩
    · simp at h

theorem run_invariant (P : State → Prop)
    (hP : ∀ st ev st1, P st → step st ev = .ok st1 → P st1) :
    ∀ (evs : List Event) (st st1 : State), P st → run st evs = .ok st1 → P st1 := by
  intro evs
  induction evs with
  | nil =>
    intro st st1 h0 h
    simp [run] at h
    exact h ▸ h0
  | cons ev evs ih =>
    intro st st1 h0 h
    simp only [run] at h
    cases hs : step st ev with
    | ok st2 =>
      rw [hs] at h
      exact ih st2 st1 (hP st ev st2 h0 hs) h
    | blocked => rw [hs] at h; simp [Offer.bind] at h
    | panic => rw [hs] at h; simp [Offer.bind] at h

theorem run_append (l1 l2 : List Event) (x y : State) (h : run x l1 = .ok y) :
    run x (l1 ++ l2) = run y l2 := by
  induction l1 generalizing x with
  | nil => simp [run] at h; subst h; rfl
  | cons e l1 ih =>
    simp only [run, List.cons_append] at h ⊢
    cases hx : step x e with
    | ok z => rw [hx] at h; exact ih z h
    | blocked => rw [hx] at h; simp [Offer.bind] at h
    | panic => rw [hx] at h; simp [Offer.bind] at h

theorem wired_step (st : State) (ev : Event) (st1 : State) (hw : Wired st)
    (h : step st ev = .ok st1) : Wired st1 := by
  obtain ⟨he, h1, h2, h3, h4, h5⟩ := step_effect st st1 ev h
  obtain ⟨w1, w2, w3, w4, w5, w6⟩ := hw
  refine ⟨h2.trans w1, h3.trans w2, h4.trans w3, h5.trans w4, h1.trans w5, ?_⟩
  cases he with
  | enq cmd _ _ _ _ _ _ ht =>
    rcases ht with ⟨ch, _, ht⟩ | ⟨i, ch, _, _, ht⟩
    · rw [ht]; exact w6
    · rw [ht]; intro t ht; exact w6 t (List.mem_of_mem_eraseIdx ht)
  | watch _ _ _ _ ht => rw [ht]; exact w6
  | test _ _ _ _ _ _ _ ht => rw [ht]; exact w6
  | takePriority _ _ _ _ _ _ _ _ ht => rw [ht]; exact w6
  | takeNormal _ _ _ _ _ _ _ _ _ ht => rw [ht]; exact w6
  | done cmd a err _ _ _ _ _ _ _ ht =>
    rw [ht]
    intro t hmem
    rcases List.mem_append.1 hmem with hmem | hmem
    · exact w6 t hmem
    · split_ifs at hmem
      · simp at hmem; subst hmem; exact w1
      · simp at hmem

theorem wired_of_reachable (st : State) (hr : Reachable st) : Wired st := by
  obtain ⟨evs, h⟩ := hr
  refine run_invariant Wired wired_step evs _ _ ?_ h
  simp [Wired, startNewScheduler, startNewQueue]

/-- C3, refuted as stated: a recurring command submitted on `s.priority` is received
from the priority queue, sent, and rescheduled; when its timer fires it stands in
the normal queue and the priority queue is empty. -/
theorem C3_priority_affinity_counterexample :
    run startNewScheduler
        [.send 2 sampleRecurring, .loopTest, .loopRecvPriority, .sendReturn false, .timer 0]
      = .ok
        { s :=
            { schedule := 0, priority := 2
              priorityQueue := { enqueue := 2, dequeue := 3, queued := [] }
              queue := { enqueue := 0, dequeue := 1, queued := [sampleRecurring] } }
          abort := 4
          loop := .top
          watcher := .test
          timers := []
          dispatched := [⟨sampleRecurring, .priorityQueue, none⟩]
          armed := [(0, sampleRecurring)]
          logged := 0 } := by
  decide

/-- C3, amended: for every reachable state in which the loop is sending a command
with a positive interval, from whichever queue it came, the return of the send
starts one `reschedule` goroutine for that command on `s.schedule`, which is the
enqueue channel of the normal queue and not that of the priority queue; in every
later state, when that goroutine's send is received the command is appended to the
normal queue and the priority queue is untouched. -/
theorem C3_reschedule_into_normal_queue (st : State) (hr : Reachable st) (cmd : command)
    (a : Option Chan) (err : Bool) (hs : st.loop = .sending cmd a)
    (hi : 0 < cmd.interval) :
    ∃ st1, step st (.sendReturn err) = .ok st1 ∧
      st1.timers = st.timers ++ [(st.s.schedule, cmd)] ∧
      st.s.schedule = st.s.queue.enqueue ∧ st.s.schedule ≠ st.s.priorityQueue.enqueue ∧
      ∀ evs st2 i, run st1 evs = .ok st2 → st2.timers.get? i = some (st.s.schedule, cmd) →
        ∃ st3, step st2 (.timer i) = .ok st3 ∧
          st3.s.queue.queued = st2.s.queue.queued ++ [cmd] ∧
          st3.s.priorityQueue = st2.s.priorityQueue := by
  obtain ⟨w1, w2, w3, w4, w5, w6⟩ := wired_of_reachable st hr
  have hstep : step st (.sendReturn err) =
      .ok { st with
        loop := .top
        logged := if err then st.logged + 1 else st.logged
        timers := st.timers ++ [reschedule st.s cmd]
        armed := st.armed ++ [reschedule st.s cmd] } := by
    simp [step, hs, hi]
  refine ⟨_, hstep, rfl, w1.trans w3.symm, by rw [w1, w4]; decide, ?_⟩
  intro evs st2 i hrun hget
  have hr2 : Reachable st2 := by
    obtain ⟨evs0, h0⟩ := hr
    refine ⟨evs0 ++ .sendReturn err :: evs, ?_⟩
    rw [run_append _ _ _ _ h0]
    simp only [run, hstep, Offer.bind]
    exact hrun
  obtain ⟨v1, v2, v3, v4, v5, v6⟩ := wired_of_reachable st2 hr2
  refine ⟨{ st2 with
      s := { st2.s with queue := { st2.s.queue with queued := st2.s.queue.queued ++ [cmd] } }
      timers := st2.timers.eraseIdx i }, ?_, rfl, rfl⟩
  rw [List.get?_eq_getElem?, w1] at hget
  simp [step, hget, deliver_eq, v3, Offer.bind]

/-- C3 (amended) on a recurring command that came from the priority queue. -/
theorem C3_reschedule_into_normal_queue_witness :
    ∃ st1, step samplePrioritySending (.sendReturn false) = .ok st1 ∧
      st1.timers = samplePrioritySending.timers ++
        [(samplePrioritySending.s.schedule, sampleRecurring)] ∧
      samplePrioritySending.s.schedule = samplePrioritySending.s.queue.enqueue ∧
      samplePrioritySending.s.schedule ≠ samplePrioritySending.s.priorityQueue.enqueue ∧
      ∀ evs st2 i, run st1 evs = .ok st2 →
        st2.timers.get? i = some (samplePrioritySending.s.schedule, sampleRecurring) →
        ∃ st3, step st2 (.timer i) = .ok st3 ∧
          st3.s.queue.queued = st2.s.queue.queued ++ [sampleRecurring] ∧
          st3.s.priorityQueue = st2.s.priorityQueue :=
  C3_reschedule_into_normal_queue samplePrioritySending
    ⟨[.send 2 sampleRecurring, .send 0 sampleOnce, .loopTest, .loopRecvPriority], by decide⟩
    sampleRecurring none false (by decide) (by decide)

theorem abortByOrigin_step (st : State) (ev : Event) (st1 : State) (hinv : AbortByOrigin st)
    (h : step st ev = .ok st1) : AbortByOrigin st1 := by
  obtain ⟨he, ha, -⟩ := step_effect st st1 ev h
  intro d hd
  rw [ha]
  cases he with
  | enq cmd _ _ hd1 => exact hinv d (hd1 ▸ hd)
  | watch _ _ hd1 => exact hinv d (hd1 ▸ hd)
  | test _ _ _ _ _ hd1 => exact hinv d (hd1 ▸ hd)
  | done cmd a err _ _ _ _ _ hd1 => exact hinv d (hd1 ▸ hd)
  | takePriority cmd _ _ _ _ _ hd1 =>
    rw [hd1] at hd
    rcases List.mem_append.1 hd with hd | hd
    · exact hinv d hd
    · simp at hd; subst hd; simp
  | takeNormal cmd _ _ _ _ _ _ hd1 =>
    rw [hd1] at hd
    rcases List.mem_append.1 hd with hd | hd
    · exact hinv d hd
    · simp at hd; subst hd; simp

/-- C4: in every reachable state of the scheduler, each send recorded so far has nil
as abort channel when its command came from the priority queue and the
scheduler's one abort channel when it came from the normal queue; and each action
of the loop that receives a command does so: the receive of line 103 and the
priority case of the select take the head of the priority queue and call
`sendMessage` with nil, the other case of the select takes the head of the normal
queue and calls it with `abort`.  No other action starts a send. -/
theorem C4_abort_by_origin (st : State) (hr : Reachable st) :
    (∀ d ∈ st.dispatched,
      (d.origin = .priorityQueue → d.abortArg = none) ∧
      (d.origin = .queue → d.abortArg = some startNewScheduler.abort)) ∧
    (∀ ev st1, step st ev = .ok st1 →
      st1.abort = st.abort ∧
      ((ev = .loopRecvPriority ∨ ev = .loopSelect .priorityQueue) →
        ∃ cmd, st.s.priorityQueue.queued = cmd :: st1.s.priorityQueue.queued ∧
          st1.s.queue = st.s.queue ∧ st1.loop = .sending cmd none ∧
          st1.dispatched = st.dispatched ++ [⟨cmd, .priorityQueue, none⟩]) ∧
      (ev = .loopSelect .queue →
        ∃ cmd, st.s.queue.queued = cmd :: st1.s.queue.queued ∧
          st1.s.priorityQueue = st.s.priorityQueue ∧
          st1.loop = .sending cmd (some st.abort) ∧
          st1.dispatched = st.dispatched ++ [⟨cmd, .queue, some st.abort⟩]) ∧
      (st1.dispatched ≠ st.dispatched →
        ev = .loopRecvPriority ∨ ev = .loopSelect .priorityQueue ∨
          ev = .loopSelect .queue)) := by
  constructor
  · obtain ⟨evs, h⟩ := hr
    have h0 : AbortByOrigin startNewScheduler := by
      intro d hd
      simp [startNewScheduler] at hd
    have h1 := run_invariant AbortByOrigin abortByOrigin_step evs _ _ h0 h
    have h2 := (wired_of_reachable st ⟨evs, h⟩).2.2.2.2.1
    intro d hd
    have h3 := h1 d hd
    rw [h2] at h3
    exact h3
  · intro ev st1 h
    obtain ⟨he, ha, -⟩ := step_effect st st1 ev h
    refine ⟨ha, ?_, ?_, ?_⟩
    · intro hev
      cases he with
      | takePriority cmd _ hloop _ hp hq hd => exact ⟨cmd, hp, hq, hloop, hd⟩
      | enq cmd _ _ _ _ _ _ ht =>
        rcases ht with ⟨_, h1, _⟩ | ⟨_, _, h1, _⟩ <;> rcases hev with h2 | h2 <;>
          rw [h1] at h2 <;> cases h2
      | watch _ _ _ _ _ _ h1 =>
        rcases h1 with h1 | h1 | h1 <;> rcases hev with h2 | h2 <;>
          rw [h1] at h2 <;> cases h2
      | test h1 => rcases hev with h2 | h2 <;> rw [h1] at h2 <;> cases h2
      | takeNormal cmd h1 => rcases hev with h2 | h2 <;> rw [h1] at h2 <;> cases h2
      | done cmd a err h1 => rcases hev with h2 | h2 <;> rw [h1] at h2 <;> cases h2
    · intro h2
      cases he with
      | takeNormal cmd _ _ hloop _ hq hp hd => exact ⟨cmd, hq, hp, hloop, hd⟩
      | enq cmd _ _ _ _ _ _ ht =>
        rcases ht with ⟨_, h1, _⟩ | ⟨_, _, h1, _⟩ <;> rw [h1] at h2 <;> cases h2
      | watch _ _ _ _ _ _ h1 => rcases h1 with h1 | h1 | h1 <;> rw [h1] at h2 <;> cases h2
      | test h1 => rw [h1] at h2; cases h2
      | takePriority cmd h1 => rcases h1 with ⟨h1, _⟩ | ⟨h1, _⟩ <;> rw [h1] at h2 <;> cases h2
      | done cmd a err h1 => rw [h1] at h2; cases h2
    · intro hne
      cases he with
      | takePriority cmd h1 =>
        rcases h1 with ⟨h1, _⟩ | ⟨h1, _⟩
        · exact .inl h1
        · exact .inr (.inl h1)
      | takeNormal cmd h1 => exact .inr (.inr h1)
      | enq cmd _ _ hd => exact absurd hd hne
      | watch _ _ hd => exact absurd hd hne
      | test _ _ _ _ _ hd => exact absurd hd hne
      | done cmd a err _ _ _ _ _ hd => exact absurd hd hne

/-- C4 where the loop receives.  Waiting in line 103, or in the select, with a recurring
command in the priority queue, the loop takes it and calls `sendMessage` with nil;
waiting in the select with a one-shot command in the normal queue, it takes that
one and calls `sendMessage` with the abort channel (channel 4), and the send is
recorded so. -/
theorem C4_abort_by_origin_witness :
    (step sampleAtRecv .loopRecvPriority = .ok samplePrioritySending ∧
      step sampleAtSelect (.loopSelect .priorityQueue) = .ok samplePrioritySending ∧
      samplePrioritySending.loop = .sending sampleRecurring none ∧
      samplePrioritySending.dispatched =
        sampleAtRecv.dispatched ++ [⟨sampleRecurring, .priorityQueue, none⟩]) ∧
    (step sampleAtSelect (.loopSelect .queue) = .ok sampleNormalSending ∧
      sampleNormalSending.loop = .sending sampleOnce (some 4) ∧
      sampleNormalSending.dispatched =
        sampleAtSelect.dispatched ++ [⟨sampleOnce, .queue, some 4⟩]) ∧
    (∀ d ∈ sampleNormalSending.dispatched,
      (d.origin = .priorityQueue → d.abortArg = none) ∧
      (d.origin = .queue → d.abortArg = some 4)) := by
  have hr1 : Reachable sampleAtRecv :=
    ⟨[.send 2 sampleRecurring, .send 0 sampleOnce, .loopTest], by decide⟩
  have hr2 : Reachable sampleAtSelect :=
    ⟨[.send 0 sampleOnce, .loopTest, .send 2 sampleRecurring], by decide⟩
  have hr3 : Reachable sampleNormalSending :=
    ⟨[.send 0 sampleOnce, .loopTest, .send 2 sampleRecurring, .loopSelect .queue], by decide⟩
  have hs1 : step sampleAtRecv .loopRecvPriority = .ok samplePrioritySending := by decide
  have hs2 : step sampleAtSelect (.loopSelect .priorityQueue) = .ok samplePrioritySending := by
    decide
  have hs3 : step sampleAtSelect (.loopSelect .queue) = .ok sampleNormalSending := by decide
  obtain ⟨c1, hq1, -, hl1, hd1⟩ :=
    ((C4_abort_by_origin sampleAtRecv hr1).2 _ _ hs1).2.1 (.inl rfl)
  obtain ⟨c3, hq3, -, hl3, hd3⟩ := ((C4_abort_by_origin sampleAtSelect hr2).2 _ _ hs3).2.2.1 rfl
  have hq1a : [sampleRecurring] = [c1] := hq1
  have hq3a : [sampleOnce] = [c3] := hq3
  obtain rfl : sampleRecurring = c1 := (List.cons.inj hq1a).1
  obtain rfl : sampleOnce = c3 := (List.cons.inj hq3a).1
  exact ⟨⟨hs1, hs2, hl1, hd1⟩, ⟨hs3, hl3, hd3⟩, (C4_abort_by_origin sampleNormalSending hr3).1⟩

theorem armedInv_step (st : State) (ev : Event) (st1 : State) (hinv : ArmedInv st)
    (h : step st ev = .ok st1) : ArmedInv st1 := by
  obtain ⟨he, -, hsch, -⟩ := step_effect st st1 ev h
  obtain ⟨hlast, harm⟩ := hinv
  unfold ArmedInv
  rw [hsch]
  have hsame : st1.loop = st.loop → st1.dispatched = st.dispatched → st1.armed = st.armed →
      (∀ cmd a, st1.loop = .sending cmd a → ∃ pre o, st1.dispatched = pre ++ [⟨cmd, o, a⟩]) ∧
      st1.armed = (recurring (completed st1)).map fun c => (st.s.schedule, c) := by
    intro h1 h2 h3
    have hc : completed st1 = completed st := by unfold completed; rw [h1, h2]
    rw [h1, h2, h3, hc]
    exact ⟨hlast, harm⟩
  cases he with
  | enq cmd hloop _ hd ha => exact hsame hloop hd ha
  | watch hloop _ hd ha => exact hsame hloop hd ha
  | test _ h0 hloop _ _ hd ha =>
    have hc : completed st1 = completed st := by
      unfold completed
      rw [hloop, h0, hd]
      split_ifs <;> rfl
    refine ⟨fun cmd a hs => ?_, by rw [ha, hc]; exact harm⟩
    rw [hloop] at hs
    split_ifs at hs
  | takePriority cmd hev hloop _ _ _ hd ha =>
    have hc : completed st1 = completed st := by
      unfold completed
      rw [hloop, hd]
      rcases hev with ⟨_, h0⟩ | ⟨_, h0⟩ <;> simp [h0]
    refine ⟨fun c a hs => ?_, by rw [ha, hc]; exact harm⟩
    rw [hloop] at hs
    cases hs
    exact ⟨_, _, hd⟩
  | takeNormal cmd _ h0 hloop _ _ _ hd ha =>
    have hc : completed st1 = completed st := by
      unfold completed
      rw [hloop, hd]
      simp [h0]
    refine ⟨fun c a hs => ?_, by rw [ha, hc]; exact harm⟩
    rw [hloop] at hs
    cases hs
    exact ⟨_, _, hd⟩
  | done cmd a err _ h0 hloop _ _ hd ha =>
    obtain ⟨pre, o, hpre⟩ := hlast cmd a h0
    refine ⟨fun c b hs => (by rw [hloop] at hs; cases hs), ?_⟩
    have hc1 : completed st1 = pre ++ [⟨cmd, o, a⟩] := by
      unfold completed
      rw [hloop, hd, hpre]
    have hc0 : completed st = pre := by
      unfold completed
      rw [h0, hpre]
      simp
    rw [ha, harm, hc1, hc0]
    by_cases hi : 0 < cmd.interval <;> simp [recurring, hi]

/-- C5: in every reachable state of the scheduler the `reschedule` calls made so far
are exactly, in order and once each, the commands with a positive interval among
the sends that have returned, whatever queue and branch they came through; and
when a send returns, one `reschedule` goroutine is started for its command if the
interval is positive and none if it is zero or negative. -/
theorem C5_recurrence_iff_positive_interval (st : State) (hr : Reachable st) :
    st.armed = (recurring (completed st)).map (fun c => (st.s.schedule, c)) ∧
    (∀ cmd a err, st.loop = .sending cmd a →
      ∃ st1, step st (.sendReturn err) = .ok st1 ∧ st1.loop = .top ∧
        (0 < cmd.interval → st1.armed = st.armed ++ [reschedule st.s cmd] ∧
          st1.timers = st.timers ++ [reschedule st.s cmd]) ∧
        (cmd.interval ≤ 0 → st1.armed = st.armed ∧ st1.timers = st.timers)) ∧
    (∀ ev st1, step st ev = .ok st1 → st1.armed ≠ st.armed → ∃ err, ev = .sendReturn err) := by
  obtain ⟨evs, h⟩ := hr
  have h0 : ArmedInv startNewScheduler := by
    refine ⟨fun cmd a hs => ?_, ?_⟩
    · simp [startNewScheduler] at hs
    · simp [startNewScheduler, completed, recurring]
  have h1 := run_invariant ArmedInv armedInv_step evs _ _ h0 h
  refine ⟨h1.2, ?_, ?_⟩
  · intro cmd a err hs
    by_cases hi : 0 < cmd.interval
    · have hstep : step st (.sendReturn err) =
          .ok { st with
            loop := .top
            logged := if err then st.logged + 1 else st.logged
            timers := st.timers ++ [reschedule st.s cmd]
            armed := st.armed ++ [reschedule st.s cmd] } := by
        simp [step, hs, hi]
      exact ⟨_, hstep, rfl, fun _ => ⟨rfl, rfl⟩, fun hle => absurd hi (not_lt.2 hle)⟩
    · have hstep : step st (.sendReturn err) =
          .ok { st with
            loop := .top
            logged := if err then st.logged + 1 else st.logged } := by
        simp [step, hs, hi]
      exact ⟨_, hstep, rfl, fun hpos => absurd hpos hi, fun _ => ⟨rfl, rfl⟩⟩
  · intro ev st1 hstep hne
    obtain ⟨he, -⟩ := step_effect st st1 ev hstep
    cases he with
    | enq cmd _ _ _ ha => exact absurd ha hne
    | watch _ _ _ ha => exact absurd ha hne
    | test _ _ _ _ _ _ ha => exact absurd ha hne
    | takePriority cmd _ _ _ _ _ _ ha => exact absurd ha hne
    | takeNormal cmd _ _ _ _ _ _ _ ha => exact absurd ha hne
    | done cmd a err hev => exact ⟨err, hev⟩

/-- C5 on a state in which the loop is sending a recurring command. -/
theorem C5_recurrence_iff_positive_interval_witness :
    samplePrioritySending.armed =
      (recurring (completed samplePrioritySending)).map
        (fun c => (samplePrioritySending.s.schedule, c)) ∧
    (∀ cmd a err, samplePrioritySending.loop = .sending cmd a →
      ∃ st1, step samplePrioritySending (.sendReturn err) = .ok st1 ∧ st1.loop = .top ∧
        (0 < cmd.interval →
          st1.armed = samplePrioritySending.armed ++ [reschedule samplePrioritySending.s cmd] ∧
          st1.timers = samplePrioritySending.timers ++
            [reschedule samplePrioritySending.s cmd]) ∧
        (cmd.interval ≤ 0 → st1.armed = samplePrioritySending.armed ∧
          st1.timers = samplePrioritySending.timers)) ∧
    (∀ ev st1, step samplePrioritySending ev = .ok st1 →
      st1.armed ≠ samplePrioritySending.armed → ∃ err, ev = .sendReturn err) :=
  C5_recurrence_iff_positive_interval samplePrioritySending
    ⟨[.send 2 sampleRecurring, .send 0 sampleOnce, .loopTest, .loopRecvPriority], by decide⟩

end Dankgrinder

namespace InstancePkg

/-! ## newCmdChain: ring, failure on the empty list, frame -/

theorem index_natCast (cmds : List Ptr) (j : Nat) :
    index cmds (j : Int) =
      match cmds[j]? with
      | some p => .ok p
      | none => .error .indexOutOfRange := by
  simp [index, List.get?_eq_getElem?]

theorem index_pred (cmds : List Ptr) (j : Nat) (hj : j ≠ 0) :
    index cmds ((j : Int) - 1) = index cmds ((j - 1 : Nat) : Int) := by
  congr 1
  omega

theorem index_zero (cmds : List Ptr) : index cmds 0 = index cmds ((0 : Nat) : Int) := rfl

theorem index_some (addrs : List Nat) (j : Nat) (a : Nat) (hj : addrs[j]? = some a) :
    index (addrs.map some) (j : Int) = .ok (some a) := by
  rw [index_natCast]
  simp [hj]

theorem newCmdChainLoop_succ (cmds : List Ptr) (I : Int) (k : Nat) :
    ∀ (i : Nat) (h : Heap),
      newCmdChainLoop cmds I (k + 1) i h =
        match newCmdChainLoop cmds I k i h with
        | (some e, h1) => (some e, h1)
        | (none, h1) => newCmdChainBody cmds I (i + k) h1 := by
  induction k with
  | zero =>
    intro i h
    simp only [newCmdChainLoop, Nat.add_zero]
    rcases newCmdChainBody cmds I i h with ⟨_ | e, h1⟩ <;> rfl
  | succ k ih =>
    intro i h
    rw [newCmdChainLoop]
    rcases hb : newCmdChainBody cmds I i h with ⟨_ | e, h1⟩
    · simp only
      rw [ih (i + 1) h1]
      conv_rhs => rw [newCmdChainLoop, hb]
      simp only
      rw [show i + 1 + k = i + (k + 1) by omega]
    · simp only
      conv_rhs => rw [newCmdChainLoop, hb]

/-- What the body does at index `m` of a list of non-nil pointers: it links the
previous command to this one and, at the last index, closes the ring and sets the
interval. -/
theorem newCmdChainBody_some (addrs : List Nat) (I : Int) (m : Nat) (h : Heap)
    (a0 am : Nat) (h0 : addrs[0]? = some a0) (hm : addrs[m]? = some am)
    (ap : Nat) (hp : m ≠ 0 → addrs[m - 1]? = some ap) :
    newCmdChainBody (addrs.map some) I m h =
      (none,
        let h1 := if m ≠ 0 then Function.update h ap { h ap with Next := some am } else h
        if m + 1 = addrs.length then
          let h2 := Function.update h1 am { h1 am with Next := some a0 }
          Function.update h2 am { h2 am with Interval := I }
        else h1) := by
  unfold newCmdChainBody
  by_cases hm0 : m = 0
  · subst hm0
    obtain rfl : a0 = am := by rw [h0] at hm; exact Option.some.inj hm
    by_cases hl : (0 : Nat) + 1 = addrs.length
    · have hl2 : ((0 : Nat) : Int) = ((addrs.map some).length : Int) - 1 := by
        rw [List.length_map]; omega
      simp only [ne_eq, not_true_eq_false, if_false, if_pos hl2, if_pos hl, index_zero,
        index_some addrs 0 a0 h0, assign, store]
    · have hl2 : ¬ ((0 : Nat) : Int) = ((addrs.map some).length : Int) - 1 := by
        rw [List.length_map]; omega
      simp only [ne_eq, not_true_eq_false, if_false, if_neg hl2, if_neg hl]
  · by_cases hl : m + 1 = addrs.length
    · have hl2 : (m : Int) = ((addrs.map some).length : Int) - 1 := by
        rw [List.length_map]; omega
      simp only [ne_eq, hm0, not_false_eq_true, if_true, if_pos hl2, if_pos hl, index_zero,
        index_pred _ m hm0, index_some addrs m am hm, index_some addrs (m - 1) ap (hp hm0),
        index_some addrs 0 a0 h0, assign, store]
    · have hl2 : ¬ (m : Int) = ((addrs.map some).length : Int) - 1 := by
        rw [List.length_map]; omega
      simp only [ne_eq, hm0, not_false_eq_true, if_true, if_neg hl2, if_neg hl,
        index_pred _ m hm0, index_some addrs m am hm, index_some addrs (m - 1) ap (hp hm0),
        assign, store]

theorem nodup_index (addrs : List Nat) (hnd : addrs.Nodup) (i j a : Nat)
    (hi : addrs[i]? = some a) (hj : addrs[j]? = some a) : i = j := by
  obtain ⟨hlt, -⟩ := List.getElem?_eq_some.1 hi
  exact List.getElem?_inj hlt hnd (hi.trans hj.symm)

theorem newCmdChainLoop_inv (addrs : List Nat) (I : Int) (h : Heap) (hnd : addrs.Nodup)
    (m : Nat) :
    m ≤ addrs.length →
      ∃ hm, newCmdChainLoop (addrs.map some) I m 0 h = (none, hm) ∧
        ChainInv addrs I h m hm := by
  induction m with
  | zero =>
    intro _
    refine ⟨h, rfl, fun j a b hj => absurd hj (by omega), fun hn a b ha => ?_, fun a _ => rfl⟩
    rw [← hn] at ha
    have : addrs = [] := List.length_eq_zero.1 hn.symm
    subst this
    simp at ha
  | succ m ih =>
    intro hle
    obtain ⟨hm, hrun, i1, i2, i3⟩ := ih (by omega)
    have hlt : m < addrs.length := by omega
    obtain ⟨am, ham⟩ : ∃ am, addrs[m]? = some am :=
      ⟨addrs[m], List.getElem?_eq_getElem hlt⟩
    obtain ⟨a0, ha0⟩ : ∃ a0, addrs[0]? = some a0 :=
      ⟨addrs[0], List.getElem?_eq_getElem (by omega)⟩
    obtain ⟨ap, hap⟩ : ∃ ap, m ≠ 0 → addrs[m - 1]? = some ap :=
      ⟨addrs[m - 1], fun _ => List.getElem?_eq_getElem (by omega)⟩
    rw [newCmdChainLoop_succ, hrun]
    simp only [Nat.zero_add]
    rw [newCmdChainBody_some addrs I m hm a0 am ha0 ham ap hap]
    refine ⟨_, rfl, ?_, ?_, ?_⟩
    · intro j a b hj ha hb
      have hm0 : m ≠ 0 := by omega
      have hne_m : a ≠ am := fun e => by
        have := nodup_index addrs hnd j m a ha (e ▸ ham)
        omega
      have hstay : ∀ (g : Heap) (c : Command), Function.update g am c a = g a :=
        fun g c => Function.update_noteq hne_m c g
      by_cases hjm : j + 1 = m
      · have hjp : j = m - 1 := by omega
        have hap1 := hap hm0
        rw [← hjp, ha] at hap1
        obtain rfl := Option.some.inj hap1
        rw [hjm, ham] at hb
        obtain rfl := Option.some.inj hb
        by_cases hl : m + 1 = addrs.length
        · simp only [if_pos hm0, if_pos hl, hstay, Function.update_same]
        · simp only [if_pos hm0, if_neg hl, Function.update_same]
      · have hne_p : a ≠ ap := fun e => by
          have := nodup_index addrs hnd j (m - 1) a ha (e ▸ hap hm0)
          omega
        have hold := i1 j a b (by omega) ha hb
        by_cases hl : m + 1 = addrs.length
        · simp only [if_pos hm0, if_pos hl, hstay, Function.update_noteq hne_p, hold]
        · simp only [if_pos hm0, if_neg hl, Function.update_noteq hne_p, hold]
    · intro hl a b ha hb
      have hlast : addrs.length - 1 = m := by omega
      rw [hlast, ham] at ha
      obtain rfl := Option.some.inj ha
      rw [ha0] at hb
      obtain rfl := Option.some.inj hb
      simp only [if_pos hl, Function.update_same, and_self]
    · intro a ha
      have hold := i3 a (fun hn => absurd hn (by omega))
      have h1 : ((if m ≠ 0 then Function.update hm ap { hm ap with Next := some am }
          else hm) a).Interval = (h a).Interval := by
        by_cases hm0 : m = 0
        · simp only [ne_eq, hm0, not_true_eq_false, if_false, hold]
        · simp only [ne_eq, hm0, not_false_eq_true, if_true, Function.update_apply]
          split_ifs with e
          · rw [← e]; exact hold
          · exact hold
      by_cases hl : m + 1 = addrs.length
      · have hlast : addrs.length - 1 = m := by omega
        have hne_m : a ≠ am := fun e => by
          apply ha hl
          rw [hlast, e]
          exact ham
        simp only [if_pos hl, Function.update_noteq hne_m]
        exact h1
      · simp only [if_neg hl]
        exact h1

theorem newCmdChainLoop_ok (addrs : List Nat) (I : Int) (h : Heap) (m : Nat) :
    m ≤ addrs.length → ∃ hm, newCmdChainLoop (addrs.map some) I m 0 h = (none, hm) := by
  induction m with
  | zero => intro _; exact ⟨h, rfl⟩
  | succ m ih =>
    intro hle
    obtain ⟨hm, hrun⟩ := ih (by omega)
    have hlt : m < addrs.length := by omega
    rw [newCmdChainLoop_succ, hrun]
    simp only [Nat.zero_add]
    rw [newCmdChainBody_some addrs I m hm addrs[0] addrs[m]
      (List.getElem?_eq_getElem (by omega)) (List.getElem?_eq_getElem hlt) addrs[m - 1]
      (fun _ => List.getElem?_eq_getElem (by omega))]
    exact ⟨_, rfl⟩

theorem map_some_of_ne_none (cmds : List Ptr) (hnn : ∀ p ∈ cmds, p ≠ none) :
    cmds = (cmds.map fun p => p.getD 0).map some := by
  induction cmds with
  | nil => rfl
  | cons p rest ih =>
    have hp : p ≠ none := hnn p (List.mem_cons_self _ _)
    have hrest := ih fun q hq => hnn q (List.mem_cons_of_mem _ hq)
    cases p with
    | none => exact absurd rfl hp
    | some a =>
      simp only [List.map_cons, Option.getD_some]
      rw [← hrest]

/-- C6: for a non-empty list of pairwise distinct commands and a chain interval `I`,
newCmdChain returns the first command, and afterwards every command links to the
next one in the list, the last to the first (a single command to itself), the
last command has interval `I`, and every other command has the interval it came
with. -/
theorem C6_chain_ring (addrs : List Nat) (I : Int) (h : Heap) (hne : addrs ≠ [])
    (hnd : addrs.Nodup) :
    ∃ a0 h1, addrs[0]? = some a0 ∧
      newCmdChain (addrs.map some) I h = (.ok (some a0), h1) ∧
      (∀ i a b, addrs[i]? = some a → addrs[(i + 1) % addrs.length]? = some b →
        (h1 a).Next = some b) ∧
      (∀ a, addrs.getLast? = some a → (h1 a).Interval = I) ∧
      (∀ i a, i + 1 < addrs.length → addrs[i]? = some a →
        (h1 a).Interval = (h a).Interval) := by
  have hpos : 0 < addrs.length := List.length_pos.2 hne
  obtain ⟨h1, hrun, i1, i2, i3⟩ :=
    newCmdChainLoop_inv addrs I h hnd addrs.length (le_refl _)
  have h0 : addrs[0]? = some addrs[0] := List.getElem?_eq_getElem hpos
  refine ⟨addrs[0], h1, h0, ?_, ?_, ?_, ?_⟩
  · unfold newCmdChain
    rw [List.length_map, hrun]
    simp only
    rw [index_zero, index_some addrs 0 _ h0]
  · intro i a b ha hb
    have hi : i < addrs.length := (List.getElem?_eq_some.1 ha).1
    by_cases hlast : i + 1 = addrs.length
    · rw [hlast, Nat.mod_self] at hb
      refine (i2 rfl a b ?_ hb).1
      rw [show addrs.length - 1 = i by omega]
      exact ha
    · rw [Nat.mod_eq_of_lt (by omega)] at hb
      exact i1 i a b (by omega) ha hb
  · intro a ha
    rw [List.getLast?_eq_getElem?] at ha
    exact (i2 rfl a addrs[0] ha h0).2
  · intro i a hi ha
    refine i3 a fun _ hl => ?_
    have := nodup_index addrs hnd i (addrs.length - 1) a ha hl
    omega

/-- C6 on three commands A, B, C at the addresses 10, 20, 30 with chain interval 7:
A is returned, A links to B, B to C and C to A, C has interval 7, and A and B
keep their interval. -/
theorem C6_chain_ring_witness :
    (newCmdChain [some 10, some 20, some 30] 7 sampleHeap).1 = .ok (some 10) ∧
    ((newCmdChain [some 10, some 20, some 30] 7 sampleHeap).2 10).Next = some 20 ∧
    ((newCmdChain [some 10, some 20, some 30] 7 sampleHeap).2 20).Next = some 30 ∧
    ((newCmdChain [some 10, some 20, some 30] 7 sampleHeap).2 30).Next = some 10 ∧
    ((newCmdChain [some 10, some 20, some 30] 7 sampleHeap).2 30).Interval = 7 ∧
    ((newCmdChain [some 10, some 20, some 30] 7 sampleHeap).2 10).Interval =
      (sampleHeap 10).Interval ∧
    ((newCmdChain [some 10, some 20, some 30] 7 sampleHeap).2 20).Interval =
      (sampleHeap 20).Interval := by
  obtain ⟨a0, h1, h0, hrun, hnext, hlast, hkeep⟩ :=
    C6_chain_ring [10, 20, 30] 7 sampleHeap (by decide) (by decide)
  obtain rfl : 10 = a0 := Option.some.inj h0
  have hrun1 : newCmdChain [some 10, some 20, some 30] 7 sampleHeap = (.ok (some 10), h1) :=
    hrun
  rw [hrun1]
  exact ⟨rfl, hnext 0 10 20 rfl rfl, hnext 1 20 30 rfl rfl, hnext 2 30 10 rfl rfl,
    hlast 30 rfl, hkeep 0 10 (by decide) rfl, hkeep 1 20 (by decide) rfl⟩

/-- C7: on the empty list newCmdChain panics (index out of range at `cmds[0]`) and
leaves every command as it was; it has no queue at hand, the heap is all it can
touch.  On a non-empty list of commands, each entry pointing to a command, it
returns, and what it returns is the first entry. -/
theorem C7_empty_chain_fails :
    (∀ (I : Int) (h : Heap), newCmdChain [] I h = (.error .indexOutOfRange, h)) ∧
    (∀ (cmds : List Ptr) (I : Int) (h : Heap), cmds ≠ [] → (∀ p ∈ cmds, p ≠ none) →
      ∃ p h1, newCmdChain cmds I h = (.ok p, h1) ∧ cmds.head? = some p) := by
  refine ⟨fun I h => rfl, fun cmds I h hne hnn => ?_⟩
  have hmap := map_some_of_ne_none cmds hnn
  generalize (cmds.map fun p => p.getD 0) = addrs at hmap
  subst hmap
  have hne2 : addrs ≠ [] := fun e => hne (by rw [e]; rfl)
  have hpos : 0 < addrs.length := List.length_pos.2 hne2
  obtain ⟨h1, hrun⟩ := newCmdChainLoop_ok addrs I h addrs.length (le_refl _)
  have h0 : addrs[0]? = some addrs[0] := List.getElem?_eq_getElem hpos
  refine ⟨some addrs[0], h1, ?_, ?_⟩
  · unfold newCmdChain
    rw [List.length_map, hrun]
    simp only
    rw [index_zero, index_some addrs 0 _ h0]
  · rw [List.head?_eq_getElem?, List.getElem?_map, h0]
    rfl

/-- C7 on the empty list and on a list of two commands. -/
theorem C7_empty_chain_fails_witness :
    newCmdChain [] 7 sampleHeap = (.error .indexOutOfRange, sampleHeap) ∧
    ∃ p h1, newCmdChain [some 10, some 20] 7 sampleHeap = (.ok p, h1) ∧
      [some 10, some 20].head? = some p :=
  ⟨C7_empty_chain_fails.1 7 sampleHeap,
    C7_empty_chain_fails.2 [some 10, some 20] 7 sampleHeap (by decide) (by decide)⟩

theorem Untouched.refl (last : Option Ptr) (h : Heap) : Untouched last h h :=
  fun _ => ⟨rfl, rfl, rfl, rfl, fun _ => rfl⟩

theorem Untouched.trans {last : Option Ptr} {h h1 h2 : Heap} (u1 : Untouched last h h1)
    (u2 : Untouched last h1 h2) : Untouched last h h2 := fun a =>
  ⟨(u2 a).1.trans (u1 a).1, (u2 a).2.1.trans (u1 a).2.1, (u2 a).2.2.1.trans (u1 a).2.2.1,
    (u2 a).2.2.2.1.trans (u1 a).2.2.2.1, fun hl => ((u2 a).2.2.2.2 hl).trans ((u1 a).2.2.2.2 hl)⟩

theorem assign_next_untouched (last : Option Ptr) (h : Heap) (lhs : Except Panic Ptr)
    (v : Ptr) : Untouched last h (assign h lhs fun c => { c with Next := v }).2 := by
  intro a
  rcases lhs with e | (_ | p)
  · exact Untouched.refl last h a
  · exact Untouched.refl last h a
  · simp only [assign, store, Function.update_apply]
    split_ifs with e
    · subst e; exact ⟨rfl, rfl, rfl, rfl, fun _ => rfl⟩
    · exact ⟨rfl, rfl, rfl, rfl, fun _ => rfl⟩

theorem assign_interval_untouched (cmds : List Ptr) (I : Int) (h : Heap) (i : Nat)
    (hi : (i : Int) = (cmds.length : Int) - 1) :
    Untouched cmds.getLast? h
      (assign h (index cmds i) fun c => { c with Interval := I }).2 := by
  intro a
  rw [index_natCast]
  rcases hc : cmds[i]? with _ | (_ | p)
  · exact Untouched.refl _ h a
  · exact Untouched.refl _ h a
  · simp only [assign, store, Function.update_apply]
    split_ifs with e
    · subst e
      refine ⟨rfl, rfl, rfl, rfl, fun hl => absurd ?_ hl⟩
      rw [List.getLast?_eq_getElem?, ← hc]
      congr 1
      omega
    · exact ⟨rfl, rfl, rfl, rfl, fun _ => rfl⟩

theorem newCmdChainBody_untouched (cmds : List Ptr) (I : Int) (i : Nat) (h : Heap) :
    Untouched cmds.getLast? h (newCmdChainBody cmds I i h).2 := by
  unfold newCmdChainBody
  have step1 : Untouched cmds.getLast? h
      (if i ≠ 0 then
        match index cmds i with
        | .ok v => assign h (index cmds ((i : Int) - 1)) fun c => { c with Next := v }
        | .error e => (some e, h)
      else (none, h)).2 := by
    split_ifs
    · split
      · exact assign_next_untouched _ _ _ _
      · exact Untouched.refl _ _
    · exact Untouched.refl _ _
  generalize (if i ≠ 0 then
        match index cmds i with
        | .ok v => assign h (index cmds ((i : Int) - 1)) fun c => { c with Next := v }
        | .error e => (some e, h)
      else (none, h)) = r1 at step1
  rcases r1 with ⟨_ | e, h1⟩
  · simp only
    split_ifs with hi
    · have step2 : Untouched cmds.getLast? h1
          (match index cmds 0 with
            | .ok v => assign h1 (index cmds i) fun c => { c with Next := v }
            | .error e => (some e, h1)).2 := by
        split
        · exact assign_next_untouched _ _ _ _
        · exact Untouched.refl _ _
      generalize (match index cmds 0 with
            | .ok v => assign h1 (index cmds i) fun c => { c with Next := v }
            | .error e => (some e, h1)) = r2 at step2
      rcases r2 with ⟨_ | e, h2⟩
      · exact (step1.trans step2).trans (assign_interval_untouched cmds I h2 i hi)
      · exact step1.trans step2
    · exact step1
  · exact step1

theorem newCmdChainLoop_untouched (cmds : List Ptr) (I : Int) (k : Nat) :
    ∀ (i : Nat) (h : Heap),
      Untouched cmds.getLast? h (newCmdChainLoop cmds I k i h).2 := by
  induction k with
  | zero => intro i h; exact Untouched.refl _ _
  | succ k ih =>
    intro i h
    rw [newCmdChainLoop]
    have hb := newCmdChainBody_untouched cmds I i h
    rcases hb0 : newCmdChainBody cmds I i h with ⟨_ | e, h1⟩
    · rw [hb0] at hb
      exact hb.trans (ih (i + 1) h1)
    · rw [hb0] at hb
      exact hb

/-- C8: newCmdChain leaves the content of every command as it was: at every address
the fields Value, Amount, AwaitResume and CondFunc are the same before and after,
for every list of pointers and every chain interval; and Interval is the same at
every address but that of the last entry of the list.  Only Next, and Interval
of the last command, are written. -/
theorem C8_chain_keeps_content (cmds : List Ptr) (chainInterval : Int) (h : Heap) (a : Nat) :
    ((newCmdChain cmds chainInterval h).2 a).Value = (h a).Value ∧
    ((newCmdChain cmds chainInterval h).2 a).Amount = (h a).Amount ∧
    ((newCmdChain cmds chainInterval h).2 a).AwaitResume = (h a).AwaitResume ∧
    ((newCmdChain cmds chainInterval h).2 a).CondFunc = (h a).CondFunc ∧
    (cmds.getLast? ≠ some (some a) →
      ((newCmdChain cmds chainInterval h).2 a).Interval = (h a).Interval) := by
  have hl := newCmdChainLoop_untouched cmds chainInterval cmds.length 0 h
  unfold newCmdChain
  rcases hl0 : newCmdChainLoop cmds chainInterval cmds.length 0 h with ⟨_ | e, h1⟩
  · rw [hl0] at hl
    exact hl a
  · rw [hl0] at hl
    exact hl a

end InstancePkg

namespace ConfigPkg

/-! ## Validation -/

theorem validateCustomCommands_none (l : List CustomCommand) :
    ∀ i, validateCustomCommands i l = none → ∀ cmd ∈ l, WellFormed cmd := by
  induction l with
  | nil => intro i _ cmd hmem; cases hmem
  | cons c rest ih =>
    intro i h cmd hmem
    unfold validateCustomCommands at h
    split_ifs at h with h1 h2 h3 h4
    rcases List.mem_cons.1 hmem with rfl | hmem
    · exact ⟨h1, by simpa using h2, by simpa using h3, not_lt.1 h4⟩
    · exact ih (i + 1) h cmd hmem

theorem validateFeatures_none (features : Features) (h : validateFeatures features = none) :
    validateCustomCommands 0 features.CustomCommands = none := by
  unfold validateFeatures at h
  simp only at h
  split at h
  · cases h
  · split at h
    · cases h
    · exact h

theorem validateInstance_none (x : Instance) (h : validateInstance x = none) :
    validateFeatures x.Features = none := by
  unfold validateInstance at h
  split_ifs at h
  split at h
  · cases h
  · assumption

theorem validateInstances_none (ck : String) (l : List Instance) :
    ∀ i, validateInstances ck i l = none → ∀ x ∈ l, validateInstance x = none := by
  induction l with
  | nil => intro i _ x hmem; cases hmem
  | cons y rest ih =>
    intro i h x hmem
    unfold validateInstances at h
    split at h
    · cases h
    · rename_i hy
      rcases List.mem_cons.1 hmem with rfl | hmem
      · exact hy
      · exact ih (i + 1) h x hmem

theorem validateClusters_none (l : List (String × Cluster)) :
    validateClusters l = none → ∀ kc ∈ l, validateInstance kc.2.Master = none ∧
      ∀ x ∈ kc.2.Instances, validateInstance x = none := by
  induction l with
  | nil => intro _ kc hmem; cases hmem
  | cons y rest ih =>
    intro h kc hmem
    obtain ⟨ck, cluster⟩ := y
    unfold validateClusters at h
    split at h
    · cases h
    · rename_i hmaster
      split at h
      · cases h
      · rename_i hinst
        rcases List.mem_cons.1 hmem with rfl | hmem
        · exact ⟨hmaster, validateInstances_none ck cluster.Instances 0 hinst⟩
        · exact ih h kc hmem

theorem validate_none (c : Config) (h : c.Validate = none) :
    validateClusters c.Clusters = none ∧ validateCompat c.Compat = none := by
  unfold Config.Validate at h
  split_ifs at h
  split at h
  · cases h
  · rename_i hc
    split at h
    · cases h
    · rename_i hcompat
      exact ⟨hc, hcompat⟩

end ConfigPkg

namespace InstancePkg

theorem uint_of_nonneg (x : Int) (h0 : 0 ≤ x) (hx : isInt x) : (uint x : Int) = x := by
  unfold uint
  have hlt : x < (2 : Int) ^ 64 := lt_trans hx.2 (by norm_num)
  rw [Int.emod_eq_of_lt h0 hlt, Int.toNat_of_nonneg h0]

theorem newCustomCmds_amount (sem : LoopVar) (customs : List ConfigPkg.CustomCommand) :
    (newCustomCmds sem customs).map (fun k => k.Amount) = customs.map fun cmd => uint cmd.Amount := by
  simp [newCustomCmds]

end InstancePkg

namespace ConfigPkg

/-- C9: when Validate accepts a configuration, every custom command of the master and
of every other instance of every cluster has a non-empty Value containing neither
"owo hunt" nor "owoh", and an Amount that is not negative; so the conversion
`uint(cmd.Amount)` of newCmds yields the configured amount, for each of the
commands newCmds builds from them. -/
theorem C9_validated_custom_commands (c : Config) (hv : c.Validate = none)
    (ck : String) (cluster : Cluster) (hc : (ck, cluster) ∈ c.Clusters) (x : Instance)
    (hx : x = cluster.Master ∨ x ∈ cluster.Instances) :
    (∀ cmd ∈ x.Features.CustomCommands,
      cmd.Value ≠ "" ∧ stringsContains cmd.Value "owo hunt" = false ∧
        stringsContains cmd.Value "owoh" = false ∧ 0 ≤ cmd.Amount ∧
        (InstancePkg.isInt cmd.Amount → (InstancePkg.uint cmd.Amount : Int) = cmd.Amount)) ∧
    ((∀ cmd ∈ x.Features.CustomCommands, InstancePkg.isInt cmd.Amount) →
      ∀ (sem : InstancePkg.LoopVar) (inst : InstancePkg.Instance),
        inst.Features = x.Features →
        ∃ builtin, InstancePkg.newCmds sem inst =
            builtin ++ InstancePkg.newCustomCmds sem x.Features.CustomCommands ∧
          (InstancePkg.newCustomCmds sem x.Features.CustomCommands).map
              (fun k => (k.Amount : Int)) =
            x.Features.CustomCommands.map fun cmd => cmd.Amount) := by
  have hcl := (validateClusters_none c.Clusters (validate_none c hv).1) (ck, cluster) hc
  have hxv : validateInstance x = none := by
    rcases hx with rfl | hx
    · exact hcl.1
    · exact hcl.2 x hx
  have hwf := validateCustomCommands_none x.Features.CustomCommands 0
    (validateFeatures_none x.Features (validateInstance_none x hxv))
  constructor
  · intro cmd hmem
    obtain ⟨w1, w2, w3, w4⟩ := hwf cmd hmem
    exact ⟨w1, w2, w3, w4, fun hint => InstancePkg.uint_of_nonneg cmd.Amount w4 hint⟩
  · intro hints sem inst hf
    refine ⟨_, by unfold InstancePkg.newCmds; rw [hf], ?_⟩
    have := InstancePkg.newCustomCmds_amount sem x.Features.CustomCommands
    have h2 := congrArg (List.map fun n : Nat => (n : Int)) this
    simp only [List.map_map] at h2
    rw [show (fun k : InstancePkg.Command => (k.Amount : Int)) =
      (fun n : Nat => (n : Int)) ∘ fun k => k.Amount from rfl, h2]
    apply List.map_congr_left
    intro cmd hmem
    exact InstancePkg.uint_of_nonneg cmd.Amount (hwf cmd hmem).2.2.2 (hints cmd hmem)

/-- C9 on the sample configuration, for the master of its cluster. -/
theorem C9_validated_custom_commands_witness :
    (∀ cmd ∈ sampleMaster.Features.CustomCommands,
      cmd.Value ≠ "" ∧ stringsContains cmd.Value "owo hunt" = false ∧
        stringsContains cmd.Value "owoh" = false ∧ 0 ≤ cmd.Amount ∧
        (InstancePkg.isInt cmd.Amount → (InstancePkg.uint cmd.Amount : Int) = cmd.Amount)) ∧
    ((∀ cmd ∈ sampleMaster.Features.CustomCommands, InstancePkg.isInt cmd.Amount) →
      ∀ (sem : InstancePkg.LoopVar) (inst : InstancePkg.Instance),
        inst.Features = sampleMaster.Features →
        ∃ builtin, InstancePkg.newCmds sem inst =
            builtin ++ InstancePkg.newCustomCmds sem sampleMaster.Features.CustomCommands ∧
          (InstancePkg.newCustomCmds sem sampleMaster.Features.CustomCommands).map
              (fun k => (k.Amount : Int)) =
            sampleMaster.Features.CustomCommands.map fun cmd => cmd.Amount) :=
  C9_validated_custom_commands sampleConfig (by decide) "main"
    { Master := sampleMaster, Instances := [] } (by decide) sampleMaster (Or.inl rfl)

/-- What validateCompat accepts: cooldowns above 0 and an await response timeout of 0
or more. -/
theorem validateCompat_none_iff (compat : Compat) :
    validateCompat compat = none ↔
      0 < compat.Cooldown.Pray ∧ 0 < compat.Cooldown.Hunt ∧ 0 < compat.Cooldown.Share ∧
        0 ≤ compat.AwaitResponseTimeout := by
  unfold validateCompat
  split_ifs <;> simp <;> omega

/-- C10, the input on which the code departs from its message: with the three
cooldowns above 0 and an await response timeout of exactly 0, validateCompat
returns nil, while its message for that field reads "await response timeout must
be greater than 0"; a timeout of -1 gets that message. -/
theorem C10_zero_timeout_accepted :
    validateCompat sampleCompat = none ∧
    validateCompat { sampleCompat with AwaitResponseTimeout := -1 } =
      some "await response timeout must be greater than 0" := by
  decide

end ConfigPkg

namespace Dankgrinder

/-! ## Send errors, single dispatch, the coordinator on an empty list -/

/-- C11: when a send returns, the loop goes back to line 102 whether or not
`auth.SendMessage` gave an error; the error is logged and is the only difference:
the same `reschedule` goroutine is started in both cases, one that will send this
very command on `s.schedule` when its interval is positive, and none otherwise. -/
theorem C11_failed_send_still_rescheduled (st : State) (cmd : command) (a : Option Chan)
    (hs : st.loop = .sending cmd a) :
    ∃ stOk stErr, step st (.sendReturn false) = .ok stOk ∧
      step st (.sendReturn true) = .ok stErr ∧
      stOk.loop = .top ∧ stErr.loop = .top ∧
      stOk.logged = st.logged ∧ stErr.logged = st.logged + 1 ∧
      stErr.timers = stOk.timers ∧ stErr.armed = stOk.armed ∧ stErr.s = stOk.s ∧
      stErr.dispatched = stOk.dispatched ∧
      (0 < cmd.interval → stErr.timers = st.timers ++ [(st.s.schedule, cmd)] ∧
        stErr.armed = st.armed ++ [(st.s.schedule, cmd)] ∧
        stOk.timers = st.timers ++ [(st.s.schedule, cmd)]) ∧
      (cmd.interval ≤ 0 → stErr.timers = st.timers ∧ stErr.armed = st.armed) := by
  by_cases hi : 0 < cmd.interval
  · refine ⟨{ st with
        loop := .top
        timers := st.timers ++ [reschedule st.s cmd]
        armed := st.armed ++ [reschedule st.s cmd] },
      { st with
        loop := .top
        logged := st.logged + 1
        timers := st.timers ++ [reschedule st.s cmd]
        armed := st.armed ++ [reschedule st.s cmd] }, ?_, ?_, rfl, rfl, rfl, rfl, rfl, rfl,
      rfl, rfl, fun _ => ⟨rfl, rfl, rfl⟩, fun hle => absurd hi (not_lt.2 hle)⟩
    · simp [step, hs, hi]
    · simp [step, hs, hi]
  · refine ⟨{ st with loop := .top }, { st with loop := .top, logged := st.logged + 1 },
      ?_, ?_, rfl, rfl, rfl, rfl, rfl, rfl, rfl, rfl, fun hpos => absurd hpos hi,
      fun _ => ⟨rfl, rfl⟩⟩
    · simp [step, hs, hi]
    · simp [step, hs, hi]

/-- C11 on a recurring command in flight: with and without a send error the loop is
back at line 102 and one goroutine waits to send the command on `s.schedule`
(channel 0); only the error count differs. -/
theorem C11_failed_send_still_rescheduled_witness :
    ∃ stOk stErr, step samplePrioritySending (.sendReturn false) = .ok stOk ∧
      step samplePrioritySending (.sendReturn true) = .ok stErr ∧
      stOk.loop = .top ∧ stErr.loop = .top ∧ stOk.logged = 0 ∧ stErr.logged = 1 ∧
      stErr.timers = [(0, sampleRecurring)] ∧ stErr.armed = [(0, sampleRecurring)] ∧
      stOk.timers = [(0, sampleRecurring)] := by
  obtain ⟨stOk, stErr, h1, h2, h3, h4, h5, h6, -, -, -, -, h11, -⟩ :=
    C11_failed_send_still_rescheduled samplePrioritySending sampleRecurring none (by decide)
  obtain ⟨ht, ha, hk⟩ := h11 (by decide)
  exact ⟨stOk, stErr, h1, h2, h3, h4, h5, h6, ht, ha, hk⟩

theorem inFlight_step (st : State) (ev : Event) (st1 : State) (h : step st ev = .ok st1) :
    (if startsSend ev then 1 else 0) + inFlight st =
        (if endsSend ev then 1 else 0) + inFlight st1 ∧
      st1.dispatched.length = st.dispatched.length + (if startsSend ev then 1 else 0) ∧
      (startsSend ev = true → inFlight st = 0) := by
  obtain ⟨he, -⟩ := step_effect st st1 ev h
  cases he with
  | enq cmd hloop _ hd _ _ _ ht =>
    rcases ht with ⟨ch, rfl, _⟩ | ⟨i, ch, rfl, _⟩ <;>
      simp [startsSend, endsSend, inFlight, hloop, hd]
  | watch hloop _ hd _ _ _ hev =>
    rcases hev with rfl | rfl | rfl <;> simp [startsSend, endsSend, inFlight, hloop, hd]
  | test hev h0 hloop _ _ hd =>
    subst hev
    have h1 : inFlight st1 = 0 := by
      unfold inFlight
      rw [hloop]
      split_ifs <;> rfl
    have h2 : inFlight st = 0 := by
      unfold inFlight
      rw [h0]
    simp [startsSend, endsSend, h1, h2, hd]
  | takePriority cmd hev hloop _ _ _ hd =>
    rcases hev with ⟨rfl, h0⟩ | ⟨rfl, h0⟩ <;>
      simp [startsSend, endsSend, inFlight, hloop, h0, hd]
  | takeNormal cmd hev h0 hloop _ _ _ hd =>
    subst hev
    simp [startsSend, endsSend, inFlight, hloop, h0, hd]
  | done cmd a err hev h0 hloop _ _ hd =>
    subst hev
    simp [startsSend, endsSend, inFlight, hloop, h0, hd]

theorem inFlight_run (evs : List Event) :
    ∀ (st st1 : State), run st evs = .ok st1 →
      sendsStarted evs + inFlight st = sendsReturned evs + inFlight st1 ∧
        st1.dispatched.length = st.dispatched.length + sendsStarted evs := by
  induction evs with
  | nil =>
    intro st st1 h
    simp [run] at h
    subst h
    simp [sendsStarted, sendsReturned]
  | cons ev evs ih =>
    intro st st1 h
    simp only [run] at h
    cases hs : step st ev with
    | ok st2 =>
      rw [hs] at h
      obtain ⟨h1, h2, -⟩ := inFlight_step st ev st2 hs
      obtain ⟨h3, h4⟩ := ih st2 st1 h
      simp only [sendsStarted, sendsReturned, List.filter_cons] at h3 h4 ⊢
      constructor
      · split_ifs at h1 ⊢ <;> (try simp only [List.length_cons]) <;> omega
      · split_ifs at h2 ⊢ <;> (try simp only [List.length_cons]) <;> omega
    | blocked => rw [hs] at h; simp [Offer.bind] at h
    | panic => rw [hs] at h; simp [Offer.bind] at h

/-- C14: in every reachable state of the scheduler at most one command is being sent:
along every run the calls of `sendMessage` begun exceed those that returned by the
number in flight, which is 0 or 1, and the loop begins a send only while none is
in flight. -/
theorem C14_single_dispatch (evs : List Event) (st : State)
    (h : run startNewScheduler evs = .ok st) :
    inFlight st ≤ 1 ∧ sendsStarted evs = sendsReturned evs + inFlight st ∧
      st.dispatched.length = sendsStarted evs ∧
      (∀ ev st1, step st ev = .ok st1 → startsSend ev = true →
        inFlight st = 0 ∧ inFlight st1 = 1) := by
  obtain ⟨h1, h2⟩ := inFlight_run evs _ _ h
  have h0 : inFlight startNewScheduler = 0 := rfl
  have hd : startNewScheduler.dispatched.length = 0 := rfl
  refine ⟨?_, by omega, by omega, ?_⟩
  · unfold inFlight
    split <;> omega
  · intro ev st1 hs hev
    obtain ⟨h3, -, h5⟩ := inFlight_step st ev st1 hs
    have h6 := h5 hev
    have h7 : endsSend ev = false := by
      cases ev <;> simp [startsSend] at hev <;> rfl
    rw [hev, h7, h6] at h3
    simp at h3
    exact ⟨h6, h3.symm⟩

/-- C14 on a run in which two commands are sent one after the other. -/
theorem C14_single_dispatch_witness :
    inFlight samplePrioritySending ≤ 1 ∧
      sendsStarted [.send 2 sampleRecurring, .send 0 sampleOnce, .loopTest, .loopRecvPriority] =
        sendsReturned [.send 2 sampleRecurring, .send 0 sampleOnce, .loopTest,
          .loopRecvPriority] + inFlight samplePrioritySending ∧
      samplePrioritySending.dispatched.length =
        sendsStarted [.send 2 sampleRecurring, .send 0 sampleOnce, .loopTest,
          .loopRecvPriority] ∧
      (∀ ev st1, step samplePrioritySending ev = .ok st1 → startsSend ev = true →
        inFlight samplePrioritySending = 0 ∧ inFlight st1 = 1) :=
  C14_single_dispatch _ samplePrioritySending (by decide)

/-- C15: the coordinator never panics: `Front().Value` is evaluated only where the
list is not empty.  On an empty list a dequeue is not offered and every enqueue is
taken; and when a command is handed out it is the front of the list, and the list
afterwards is the rest. -/
theorem C15_no_handoff_from_empty (q : queue) :
    (∀ ev, coordinator q ev ≠ .panic) ∧
    (q.queued = [] → coordinator q .dequeue = .blocked ∧
      ∀ cmd, coordinator q (.enqueue cmd) = .ok ({ q with queued := [cmd] }, none)) ∧
    (∀ q1 out, coordinator q .dequeue = .ok (q1, out) →
      ∃ c, out = some c ∧ Front q.queued = some c ∧ q.queued = c :: q1.queued ∧
        q1.enqueue = q.enqueue ∧ q1.dequeue = q.dequeue) := by
  refine ⟨fun ev => ?_, fun hq => ?_, fun q1 out h => ?_⟩
  · cases ev with
    | enqueue cmd => rw [coordinator_enqueue]; simp
    | dequeue =>
      rw [coordinator_dequeue]
      cases q.queued <;> simp
  · refine ⟨by rw [coordinator_dequeue, hq], fun cmd => ?_⟩
    rw [coordinator_enqueue, hq]
    rfl
  · rw [coordinator_dequeue] at h
    cases hq : q.queued with
    | nil => rw [hq] at h; simp at h
    | cons c rest =>
      rw [hq] at h
      simp only [Offer.ok.injEq, Prod.mk.injEq] at h
      obtain ⟨rfl, rfl⟩ := h
      exact ⟨c, rfl, by simp [Front], rfl, rfl, rfl⟩

end Dankgrinder

namespace Dankgrinder

/-! ## Priority commands only -/

theorem submitted_append (l1 l2 : List Event) :
    submitted (l1 ++ l2) = submitted l1 ++ submitted l2 := by
  induction l1 with
  | nil => rfl
  | cons e l1 ih => cases e <;> simp [submitted, ih]

theorem asPriority_injective : Function.Injective asPriority := by
  intro p q h
  simpa [asPriority] using h

theorem priorityOnly_step (st : State) (sub : List command) (ev : Event) (st1 : State)
    (hinv : PriorityOnly st sub) (h : step st ev = .ok st1)
    (hev : ∀ x ∈ submitted [ev], x.1 = 2 ∧ x.2.interval ≤ 0) :
    PriorityOnly st1 (sub ++ (submitted [ev]).map Prod.snd) := by
  obtain ⟨w1, w2, hsum, hq, ht, hsub, hsend⟩ := hinv
  by_cases hsnd : ∃ ch cmd, ev = .send ch cmd
  · obtain ⟨ch, cmd, rfl⟩ := hsnd
    obtain ⟨hch, hcmd⟩ := hev (ch, cmd) (by simp [submitted])
    simp only at hch hcmd
    subst hch
    have hne : ¬ (2 : Chan) = st.s.queue.enqueue := by rw [w1]; decide
    simp only [step, deliver_eq, if_neg hne, w2, if_true, Offer.bind] at h
    injection h with h
    subst h
    refine ⟨w1, rfl, ?_, hq, ht, ?_, hsend⟩
    · simp only [submitted, List.map_cons, List.map_nil, List.map_append]
      rw [← List.append_assoc, hsum]
    · intro p hp
      simp only [submitted, List.map_cons, List.map_nil, List.mem_append,
        List.mem_singleton] at hp
      rcases hp with hp | rfl
      · exact hsub p hp
      · exact hcmd
  · have hnil : submitted [ev] = [] := by
      cases ev <;> first | rfl | exact absurd ⟨_, _, rfl⟩ hsnd
    rw [hnil, List.map_nil, List.append_nil]
    obtain ⟨he, -, -, -, h4, h5⟩ := step_effect st st1 ev h
    refine ⟨h4.trans w1, h5.trans w2, ?_⟩
    cases he with
    | enq cmd _ _ _ _ _ _ htm =>
      rcases htm with ⟨ch, rfl, _⟩ | ⟨i, ch, _, hget, _⟩
      · exact absurd ⟨_, _, rfl⟩ hsnd
      · rw [ht] at hget
        simp at hget
    | watch hloop hs hd _ htm =>
      exact ⟨by rw [hs, hd]; exact hsum, by rw [hs]; exact hq, htm.trans ht, hsub,
        fun cmd a hl => hsend cmd a (hloop ▸ hl)⟩
    | test _ _ hloop _ hs hd _ htm =>
      refine ⟨by rw [hs, hd]; exact hsum, by rw [hs]; exact hq, htm.trans ht, hsub,
        fun cmd a hl => ?_⟩
      rw [hloop] at hl
      split_ifs at hl
    | takePriority cmd _ hloop _ hp hq1 hd _ htm =>
      have hsum1 : st1.dispatched ++ st1.s.priorityQueue.queued.map asPriority =
          sub.map asPriority := by
        rw [hd, ← hsum, hp, List.map_cons, List.append_assoc]
        rfl
      refine ⟨hsum1, by rw [hq1]; exact hq, htm.trans ht, hsub, fun c a hl => ?_⟩
      rw [hloop] at hl
      obtain ⟨rfl, -⟩ := LoopPc.sending.inj hl
      have hmem : asPriority cmd ∈ sub.map asPriority := by
        rw [← hsum, hp]
        simp
      obtain ⟨p, hp1, hp2⟩ := List.mem_map.1 hmem
      rw [← asPriority_injective hp2]
      exact hsub p hp1
    | takeNormal cmd _ _ _ _ hq1 =>
      rw [hq] at hq1
      cases hq1
    | done cmd a err _ h0 hloop _ hs hd _ htm =>
      have hle := hsend cmd a h0
      refine ⟨by rw [hs, hd]; exact hsum, by rw [hs]; exact hq, ?_, hsub,
        fun c b hl => by rw [hloop] at hl; cases hl⟩
      rw [htm, ht, if_neg (not_lt.2 hle)]
      rfl

theorem priorityOnly_run (evs : List Event) :
    ∀ (st st1 : State) (sub : List command), PriorityOnly st sub → run st evs = .ok st1 →
      (∀ x ∈ submitted evs, x.1 = 2 ∧ x.2.interval ≤ 0) →
      PriorityOnly st1 (sub ++ (submitted evs).map Prod.snd) := by
  induction evs with
  | nil =>
    intro st st1 sub hinv h _
    simp [run] at h
    subst h
    simpa [submitted] using hinv
  | cons ev evs ih =>
    intro st st1 sub hinv h hev
    simp only [run] at h
    have hsplit : submitted (ev :: evs) = submitted [ev] ++ submitted evs :=
      submitted_append [ev] evs
    rw [hsplit] at hev ⊢
    cases hs : step st ev with
    | ok st2 =>
      rw [hs] at h
      have h2 := priorityOnly_step st sub ev st2 hinv hs
        fun x hx => hev x (List.mem_append_left _ hx)
      have h3 := ih st2 st1 _ h2 h fun x hx => hev x (List.mem_append_right _ hx)
      rw [List.map_append, ← List.append_assoc]
      exact h3
    | blocked => rw [hs] at h; simp [Offer.bind] at h
    | panic => rw [hs] at h; simp [Offer.bind] at h

theorem run_priority_sends (l : List command) :
    ∀ (st : State), st.s.queue.enqueue = 0 → st.s.priorityQueue.enqueue = 2 →
      run st (l.map fun p => Event.send 2 p) =
        .ok { st with s := { st.s with priorityQueue :=
          { st.s.priorityQueue with queued := st.s.priorityQueue.queued ++ l } } } := by
  induction l with
  | nil =>
    intro st _ _
    simp [run]
  | cons p l ih =>
    intro st w1 w2
    have hne : ¬ (2 : Chan) = st.s.queue.enqueue := by rw [w1]; decide
    have hstep : step st (.send 2 p) =
        .ok { st with s := { st.s with priorityQueue :=
          { st.s.priorityQueue with queued := st.s.priorityQueue.queued ++ [p] } } } := by
      simp only [step, deliver_eq, if_neg hne, if_pos w2.symm, Offer.bind]
    simp only [List.map_cons, run, hstep, Offer.bind]
    refine (ih { st with s := { st.s with priorityQueue :=
      { st.s.priorityQueue with queued := st.s.priorityQueue.queued ++ [p] } } } w1 w2).trans ?_
    simp

theorem run_priority_cycles (l : List command) :
    ∀ (st : State), st.loop = .top → st.s.priorityQueue.queued = l →
      (∀ p ∈ l, p.interval ≤ 0) →
      run st ((l.map fun _ => priorityCycle).flatten) =
        .ok { st with
          s := { st.s with priorityQueue := { st.s.priorityQueue with queued := [] } }
          dispatched := st.dispatched ++ l.map asPriority } := by
  induction l with
  | nil =>
    intro st _ hq _
    obtain ⟨⟨sch, pri, ⟨pe, pd, pq⟩, q⟩, ab, lp, w, tm, dp, ar, lg⟩ := st
    simp only at hq
    subst hq
    simp [run]
  | cons p l ih =>
    intro st hl hq hle
    have hp : ¬ p.interval > 0 := not_lt.2 (hle p (List.mem_cons_self _ _))
    have hcycle : run st priorityCycle =
        .ok { st with
          s := { st.s with priorityQueue := { st.s.priorityQueue with queued := l } }
          dispatched := st.dispatched ++ [asPriority p] } := by
      simp [run, step, priorityCycle, hl, hq, Len, receive_eq, Offer.bind, enterSend, hp,
        asPriority]
    simp only [List.map_cons, List.flatten_cons]
    rw [run_append _ _ _ _ hcycle]
    refine (ih { st with
      s := { st.s with priorityQueue := { st.s.priorityQueue with queued := l } }
      dispatched := st.dispatched ++ [asPriority p] } hl rfl
      fun q hq => hle q (List.mem_cons_of_mem _ hq)).trans ?_
    simp

/-- C12: when the one-shot commands `ps` are submitted in that order on `s.priority` of
a fresh scheduler and nothing else is submitted, then in every state the scheduler
reaches, under every interleaving, the sends made so far followed by the commands
still waiting in the priority queue are `ps` in order, each sent with nil, and the
normal queue and the timers stay empty; and the run that submits them and lets the
loop iterate once for each sends exactly `ps`, in order. -/
theorem C12_priority_only_order (ps : List command) (hone : ∀ p ∈ ps, p.interval ≤ 0) :
    (∀ evs st, run startNewScheduler evs = .ok st →
      submitted evs = ps.map (fun p => (startNewScheduler.s.priority, p)) →
      st.dispatched ++ st.s.priorityQueue.queued.map asPriority = ps.map asPriority ∧
        st.s.queue.queued = [] ∧ st.timers = [] ∧
        (st.s.priorityQueue.queued = [] → st.dispatched = ps.map asPriority)) ∧
    (∃ st, run startNewScheduler (priorityOnlyRun ps) = .ok st ∧
      submitted (priorityOnlyRun ps) = ps.map (fun p => (startNewScheduler.s.priority, p)) ∧
      st.dispatched = ps.map asPriority ∧ st.loop = .top ∧
      st.s.priorityQueue.queued = []) := by
  constructor
  · intro evs st hrun hsub
    have h0 : PriorityOnly startNewScheduler [] :=
      ⟨rfl, rfl, rfl, rfl, rfl, fun p hp => (by cases hp), fun cmd a hl => (by cases hl)⟩
    have hall : ∀ x ∈ submitted evs, x.1 = 2 ∧ x.2.interval ≤ 0 := by
      intro x hx
      rw [hsub] at hx
      obtain ⟨p, hp, rfl⟩ := List.mem_map.1 hx
      exact ⟨rfl, hone p hp⟩
    have h1 := priorityOnly_run evs _ _ [] h0 hrun hall
    have hps : (submitted evs).map Prod.snd = ps := by
      rw [hsub, List.map_map]
      exact List.map_id _
    rw [List.nil_append, hps] at h1
    obtain ⟨-, -, hsum, hq, ht, -, -⟩ := h1
    refine ⟨hsum, hq, ht, fun hempty => ?_⟩
    rw [hempty] at hsum
    simpa using hsum
  · have hsends := run_priority_sends ps startNewScheduler rfl rfl
    have hcycles := run_priority_cycles ps
      { startNewScheduler with s := { startNewScheduler.s with priorityQueue :=
        { startNewScheduler.s.priorityQueue with
          queued := startNewScheduler.s.priorityQueue.queued ++ ps } } } rfl rfl hone
    have hrun : run startNewScheduler (priorityOnlyRun ps) = _ :=
      (run_append _ _ _ _ hsends).trans hcycles
    refine ⟨_, hrun, ?_, ?_, rfl, rfl⟩
    · unfold priorityOnlyRun
      rw [submitted_append]
      have h1 : ∀ l : List command,
          submitted (l.map fun p => Event.send 2 p) = l.map fun p => ((2 : Chan), p) := by
        intro l
        induction l with
        | nil => rfl
        | cons p l ih => simp [submitted, ih]
      have h2 : ∀ l : List command,
          submitted ((l.map fun _ => priorityCycle).flatten) = [] := by
        intro l
        induction l with
        | nil => rfl
        | cons p l ih =>
          simp only [List.map_cons, List.flatten_cons, submitted_append, ih]
          rfl
      rw [h1, h2, List.append_nil]
      rfl
    · simp [startNewScheduler]

/-- C12 on three priority commands P1, P2, P3. -/
theorem C12_priority_only_order_witness :
    (∀ evs st, run startNewScheduler evs = .ok st →
      submitted evs = sampleThree.map (fun p => (startNewScheduler.s.priority, p)) →
      st.dispatched ++ st.s.priorityQueue.queued.map asPriority =
          sampleThree.map asPriority ∧
        st.s.queue.queued = [] ∧ st.timers = [] ∧
        (st.s.priorityQueue.queued = [] → st.dispatched = sampleThree.map asPriority)) ∧
    (∃ st, run startNewScheduler (priorityOnlyRun sampleThree) = .ok st ∧
      submitted (priorityOnlyRun sampleThree) =
        sampleThree.map (fun p => (startNewScheduler.s.priority, p)) ∧
      st.dispatched = sampleThree.map asPriority ∧ st.loop = .top ∧
      st.s.priorityQueue.queued = []) :=
  C12_priority_only_order sampleThree (by decide)

end Dankgrinder

namespace Dankgrinder

/-! ## The watcher and the abort channel -/

theorem run_snoc (evs : List Event) (ev : Event) (st st1 : State)
    (h : run st (evs ++ [ev]) = .ok st1) :
    ∃ st0, run st evs = .ok st0 ∧ step st0 ev = .ok st1 := by
  induction evs generalizing st with
  | nil =>
    simp only [List.nil_append, run] at h
    cases hs : step st ev with
    | ok st2 =>
      rw [hs] at h
      simp only [Offer.bind, Offer.ok.injEq] at h
      subst h
      exact ⟨st, rfl, hs⟩
    | blocked => rw [hs] at h; simp [Offer.bind] at h
    | panic => rw [hs] at h; simp [Offer.bind] at h
  | cons e evs ih =>
    simp only [List.cons_append, run] at h ⊢
    cases hs : step st e with
    | ok st2 =>
      rw [hs] at h
      exact ih st2 h
    | blocked => rw [hs] at h; simp [Offer.bind] at h
    | panic => rw [hs] at h; simp [Offer.bind] at h

/-- C17, refuted as stated: at the end of `staleAbortRun` the priority queue is empty,
it was drained after the watcher's test, and the abort the watcher decided on then
is delivered to the send of a normal-queue command. -/
theorem C17_stale_abort_counterexample :
    run startNewScheduler staleAbortRun = .ok staleAbortState ∧
    staleAbortState.s.priorityQueue.queued = [] ∧
    step staleAbortState .abortRecv = .ok { staleAbortState with watcher := .sleep } := by
  decide

theorem watcher_blocked_history (evs : List Event) :
    ∀ st, run startNewScheduler evs = .ok st → st.watcher = .sendAbort →
      ∃ pre post stT, evs = pre ++ .watcherTest :: post ∧
        run startNewScheduler pre = .ok stT ∧ stT.watcher = .test ∧
        stT.s.priorityQueue.queued ≠ [] ∧ ∀ e ∈ post, isWatcherEvent e = false := by
  induction evs using List.reverseRecOn with
  | nil =>
    intro st h hw
    simp only [run, Offer.ok.injEq] at h
    subst h
    cases hw
  | append_singleton evs ev ih =>
    intro st h hw
    obtain ⟨st0, hrun0, hstep⟩ := run_snoc evs ev _ _ h
    have keep : st.watcher = st0.watcher → isWatcherEvent ev = false →
        ∃ pre post stT, evs ++ [ev] = pre ++ .watcherTest :: post ∧
          run startNewScheduler pre = .ok stT ∧ stT.watcher = .test ∧
          stT.s.priorityQueue.queued ≠ [] ∧ ∀ e ∈ post, isWatcherEvent e = false := by
      intro hsame hnw
      obtain ⟨pre, post, stT, hsplit, hpre, ht, hne, hpost⟩ := ih st0 hrun0 (hsame ▸ hw)
      refine ⟨pre, post ++ [ev], stT, by rw [hsplit]; simp, hpre, ht, hne, fun e he => ?_⟩
      rcases List.mem_append.1 he with he | he
      · exact hpost e he
      · rw [List.mem_singleton.1 he]; exact hnw
    obtain ⟨he, -⟩ := step_effect st0 st ev hstep
    cases he with
    | enq cmd _ hwt _ _ _ _ htm =>
      rcases htm with ⟨ch, rfl, _⟩ | ⟨i, ch, rfl, _⟩ <;> exact keep hwt rfl
    | test hev _ _ hwt => subst hev; exact keep hwt rfl
    | takePriority cmd hev _ hwt =>
      rcases hev with ⟨rfl, _⟩ | ⟨rfl, _⟩ <;> exact keep hwt rfl
    | takeNormal cmd hev _ _ hwt => subst hev; exact keep hwt rfl
    | done cmd a err hev _ _ hwt => subst hev; exact keep hwt rfl
    | watch _ hs _ _ _ _ hev =>
      rcases hev with rfl | rfl | rfl
      · simp only [step] at hstep
        split at hstep
        · rename_i htest
          split_ifs at hstep with hlen
          · refine ⟨evs, [], st0, rfl, hrun0, htest, ?_, fun e he => by cases he⟩
            intro hnil
            rw [hnil] at hlen
            simp [Len] at hlen
          · simp only [Offer.ok.injEq] at hstep
            subst hstep
            cases hw
        · cases hstep
      · simp only [step] at hstep
        split at hstep
        · split_ifs at hstep
          simp only [Offer.ok.injEq] at hstep
          subst hstep
          cases hw
        · cases hstep
      · simp only [step] at hstep
        split at hstep
        · simp only [Offer.ok.injEq] at hstep
          subst hstep
          cases hw
        · cases hstep

end Dankgrinder

namespace Dankgrinder

theorem sending_is_last_dispatch (evs : List Event) (st : State)
    (h : run startNewScheduler evs = .ok st) (cmd : command) (a : Option Chan)
    (hs : st.loop = .sending cmd a) :
    ∃ pre o, st.dispatched = pre ++ [⟨cmd, o, a⟩] ∧
      (o = .priorityQueue → a = none) ∧ (o = .queue → a = some st.abort) := by
  have h0 : ArmedInv startNewScheduler := by
    refine ⟨fun c b hl => ?_, ?_⟩
    · simp [startNewScheduler] at hl
    · simp [startNewScheduler, completed, recurring]
  have h1 : AbortByOrigin startNewScheduler := by
    intro d hd
    simp [startNewScheduler] at hd
  obtain ⟨pre, o, hpre⟩ := (run_invariant ArmedInv armedInv_step evs _ _ h0 h).1 cmd a hs
  have h2 := run_invariant AbortByOrigin abortByOrigin_step evs _ _ h1 h ⟨cmd, o, a⟩
    (by rw [hpre]; simp)
  exact ⟨pre, o, hpre, h2.1, h2.2⟩

/-- C17, amended: whenever an abort is delivered in a run of the scheduler, it goes to
the send in progress of a command that came from the normal queue, and it is the
abort the watcher decided on at its latest test of line 93, when the priority queue
was not empty; between that test and the delivery the watcher has done nothing,
whatever the other goroutines did to the priority queue in the meantime. -/
theorem C17_abort_from_latest_test (evs : List Event) (st st1 : State)
    (hrun : run startNewScheduler evs = .ok st) (hstep : step st .abortRecv = .ok st1) :
    (∃ cmd before, st.loop = .sending cmd (some st.abort) ∧
      st.dispatched = before ++ [⟨cmd, .queue, some st.abort⟩]) ∧
    st.watcher = .sendAbort ∧ st1 = { st with watcher := .sleep } ∧
    ∃ pre post stT, evs = pre ++ .watcherTest :: post ∧
      run startNewScheduler pre = .ok stT ∧ stT.watcher = .test ∧
      stT.s.priorityQueue.queued ≠ [] ∧ ∀ e ∈ post, isWatcherEvent e = false := by
  have hw : st.watcher = .sendAbort ∧ (∃ cmd, st.loop = .sending cmd (some st.abort)) ∧
      st1 = { st with watcher := .sleep } := by
    simp only [step] at hstep
    split at hstep
    · rename_i c ch hwt hl
      split_ifs at hstep with hch
      simp only [Offer.ok.injEq] at hstep
      exact ⟨hwt, ⟨c, by rw [hl, hch]⟩, hstep.symm⟩
    · cases hstep
  obtain ⟨hwt, ⟨cmd, hl⟩, hst1⟩ := hw
  refine ⟨?_, hwt, hst1, watcher_blocked_history evs st hrun hwt⟩
  obtain ⟨before, o, hd, ho1, -⟩ := sending_is_last_dispatch evs st hrun cmd _ hl
  cases o with
  | priorityQueue => exact absurd (ho1 rfl) (by simp)
  | queue => exact ⟨cmd, before, hl, hd⟩

/-- C17 (amended) on the run in which the delivered abort is stale. -/
theorem C17_abort_from_latest_test_witness :
    (∃ cmd before, staleAbortState.loop = .sending cmd (some staleAbortState.abort) ∧
      staleAbortState.dispatched = before ++ [⟨cmd, .queue, some staleAbortState.abort⟩]) ∧
    staleAbortState.watcher = .sendAbort ∧
    ({ staleAbortState with watcher := .sleep } : State) =
      { staleAbortState with watcher := .sleep } ∧
    ∃ pre post stT, staleAbortRun = pre ++ .watcherTest :: post ∧
      run startNewScheduler pre = .ok stT ∧ stT.watcher = .test ∧
      stT.s.priorityQueue.queued ≠ [] ∧ ∀ e ∈ post, isWatcherEvent e = false :=
  C17_abort_from_latest_test staleAbortRun staleAbortState
    { staleAbortState with watcher := .sleep } (by decide) (by decide)

end Dankgrinder

namespace ConfigPkg

/-! ## validateInstance -/

theorem ne_of_data_prefix (p : List Char) (s b : String) (hp : p <+: s.data)
    (hb : ¬ p <+: b.data) : s ≠ b := fun h => hb (h ▸ hp)

theorem data_prefix_append (p : List Char) (s t : String) (hp : p <+: s.data) :
    p <+: (s ++ t).data := by
  rw [String.data_append]
  exact hp.trans (List.prefix_append _ _)

theorem validateCustomCommands_ne (l : List CustomCommand) :
    ∀ i, validateCustomCommands i l ≠ some "invalid channel id" := by
  induction l with
  | nil => intro i h; cases h
  | cons c rest ih =>
    intro i
    unfold validateCustomCommands
    split_ifs
    · intro h
      exact ne_of_data_prefix "features".data _ _
        (data_prefix_append _ _ _ (data_prefix_append _ _ _ (by decide))) (by decide)
        (Option.some.inj h)
    · intro h
      exact ne_of_data_prefix "invalid cu".data _ _
        (data_prefix_append _ _ _ (data_prefix_append _ _ _ (by decide))) (by decide)
        (Option.some.inj h)
    · intro h
      exact ne_of_data_prefix "invalid cu".data _ _
        (data_prefix_append _ _ _ (data_prefix_append _ _ _ (by decide))) (by decide)
        (Option.some.inj h)
    · intro h
      exact ne_of_data_prefix "features".data _ _
        (data_prefix_append _ _ _ (data_prefix_append _ _ _ (by decide))) (by decide)
        (Option.some.inj h)
    · exact ih (i + 1)

theorem validateFeatures_ne (features : Features) :
    validateFeatures features ≠ some "invalid channel id" := by
  unfold validateFeatures
  simp only
  split
  · rename_i err h
    split_ifs at h <;> cases h <;> decide
  · split
    · rename_i err h
      split_ifs at h
      cases h
      decide
    · exact validateCustomCommands_ne _ 0

theorem validateShifts_ne (l : List Shift) :
    validateShifts l ≠ some "invalid channel id" := by
  induction l with
  | nil => intro h; cases h
  | cons c rest ih =>
    unfold validateShifts
    split_ifs
    · intro h
      exact ne_of_data_prefix "invalid s".data _ _ (data_prefix_append _ _ _ (by decide))
        (by decide) (Option.some.inj h)
    · exact ih

theorem validateShifts_none (l : List Shift) (h : validateShifts l = none) :
    ∀ shift ∈ l, shift.State = ShiftStateActive ∨ shift.State = ShiftStateDormant := by
  induction l with
  | nil => intro shift hmem; cases hmem
  | cons c rest ih =>
    intro shift hmem
    unfold validateShifts at h
    split_ifs at h with hc
    rcases List.mem_cons.1 hmem with rfl | hmem
    · by_contra hcon
      exact hc ⟨fun e => hcon (.inl e), fun e => hcon (.inr e)⟩
    · exact ih h shift hmem

theorem isValidID_iff (id : String) :
    isValidID id = true ↔ id ≠ "" ∧ ∀ ch ∈ id.data, isDigit ch := by
  have hne : id ≠ "" ↔ id.data ≠ [] :=
    ⟨fun h e => h (String.ext e), fun h e => h (by rw [e])⟩
  rw [hne]
  unfold isValidID isDigit
  cases hd : id.data <;> simp

/-- C18: validateInstance answers "no token" on an empty Token; otherwise "no channel
id" on an empty ChannelID; otherwise "invalid channel id" exactly when ChannelID
holds a character that is not one of 0 to 9, isValidID being true exactly of the
non-empty strings of such characters; otherwise "no shifts" when there is no shift;
and it answers nil only when every shift state is "active" or "dormant". -/
theorem C18_validateInstance_identifiers (x : Instance) :
    (x.Token = "" → validateInstance x = some "no token") ∧
    (x.Token ≠ "" → x.ChannelID = "" → validateInstance x = some "no channel id") ∧
    (x.Token ≠ "" → x.ChannelID ≠ "" →
      (validateInstance x = some "invalid channel id" ↔
        ∃ ch ∈ x.ChannelID.data, ¬ isDigit ch)) ∧
    (x.Token ≠ "" → x.ChannelID ≠ "" → (∀ ch ∈ x.ChannelID.data, isDigit ch) →
      x.Shifts = [] → validateInstance x = some "no shifts") ∧
    (∀ id : String, isValidID id = true ↔ id ≠ "" ∧ ∀ ch ∈ id.data, isDigit ch) ∧
    (validateInstance x = none →
      ∀ shift ∈ x.Shifts, shift.State = "active" ∨ shift.State = "dormant") := by
  refine ⟨fun ht => ?_, fun ht hc => ?_, fun ht hc => ?_, fun ht hc hd hs => ?_,
    isValidID_iff, fun hv => ?_⟩
  · simp [validateInstance, ht]
  · simp [validateInstance, ht, hc]
  · have hid : isValidID x.ChannelID = true ↔ ∀ ch ∈ x.ChannelID.data, isDigit ch := by
      rw [isValidID_iff]
      exact ⟨fun h => h.2, fun h => ⟨hc, h⟩⟩
    constructor
    · intro hv
      by_contra hcon
      have hall : ∀ ch ∈ x.ChannelID.data, isDigit ch := by
        intro ch hmem
        by_contra hnd
        exact hcon ⟨ch, hmem, hnd⟩
      have hvalid := hid.2 hall
      unfold validateInstance at hv
      rw [if_neg ht, if_neg hc] at hv
      simp only [hvalid, Bool.not_true, Bool.false_eq_true, if_false] at hv
      split_ifs at hv
      · exact absurd hv (by decide)
      · split at hv
        · rename_i err herr
          cases hv
          exact validateFeatures_ne _ herr
        · split at hv
          · rename_i err herr
            cases hv
            exact validateShifts_ne _ herr
          · cases hv
    · rintro ⟨ch, hmem, hnd⟩
      have hinvalid : isValidID x.ChannelID = false := by
        cases hb : isValidID x.ChannelID with
        | false => rfl
        | true => exact absurd (hid.1 hb ch hmem) hnd
      unfold validateInstance
      rw [if_neg ht, if_neg hc]
      simp [hinvalid]
  · have hvalid : isValidID x.ChannelID = true := (isValidID_iff _).2 ⟨hc, hd⟩
    unfold validateInstance
    rw [if_neg ht, if_neg hc]
    simp [hvalid, hs]
  · have hsh : validateShifts x.Shifts = none := by
      unfold validateInstance at hv
      split_ifs at hv
      split at hv
      · cases hv
      · split at hv
        · cases hv
        · assumption
    exact validateShifts_none _ hsh

end ConfigPkg

namespace InstancePkg

/-! ## newCmds: what is produced, and the guards -/

theorem seconds_exact (x : Int) (h : isInt (x * 1000000000)) :
    seconds x = x * 1000000000 := by
  unfold seconds wrapInt64
  unfold isInt at h
  omega

/-- C13, refuted as stated: with a pray cooldown of 9223372037 seconds, which
validateCompat accepts, the pray command of newCmds has a negative interval, not
one of 9223372037 seconds: the multiplication by `time.Second` wraps. -/
theorem C13_long_cooldown_counterexample :
    ConfigPkg.validateCompat sampleLongPray.Compat = none ∧
    (newCmds .perLoop sampleLongPray).map (fun c => (c.Value, c.Interval)) =
      [("owo pray", -9223372036709551616)] ∧
    (-9223372036709551616 : Int) ≠ sampleLongPray.Compat.Cooldown.Pray * 1000000000 := by
  decide

/-- C13, amended: newCmds returns, in this order, the pray command if and only if
`Commands.Pray` is set, the hunt command if and only if `Commands.Hunt` is set,
and then one command per custom command in configuration order with that custom
command's Value, the interval `time.Duration(Interval) * time.Second` and the
amount `uint(Amount)`.  Such an interval is the configured number of seconds
whenever that number of seconds fits a time.Duration, and the amount is the
configured one whenever it is not negative. -/
theorem C13_newCmds_as_configured (sem : LoopVar) (inst : Instance) :
    newCmds sem inst =
      (if inst.Features.Commands.Pray then [prayCmd inst] else []) ++
      (if inst.Features.Commands.Hunt then [huntCmd inst] else []) ++
      newCustomCmds sem inst.Features.CustomCommands ∧
    (prayCmd inst).Value = "owo pray" ∧
    (prayCmd inst).Interval = seconds inst.Compat.Cooldown.Pray ∧
    (huntCmd inst).Value = "owo hunt" ∧
    (huntCmd inst).Interval = seconds inst.Compat.Cooldown.Hunt ∧
    (newCustomCmds sem inst.Features.CustomCommands).map
        (fun c => (c.Value, c.Interval, c.Amount)) =
      inst.Features.CustomCommands.map
        (fun k => (k.Value, seconds k.Interval, uint k.Amount)) ∧
    (∀ x : Int, isInt (x * 1000000000) → seconds x = x * 1000000000) ∧
    (∀ a : Int, 0 ≤ a → isInt a → (uint a : Int) = a) := by
  refine ⟨?_, rfl, rfl, rfl, rfl, ?_, seconds_exact, uint_of_nonneg⟩
  · unfold newCmds prayCmd huntCmd
    by_cases hp : inst.Features.Commands.Pray <;> by_cases hh : inst.Features.Commands.Hunt <;>
      simp [hp, hh]
  · simp [newCustomCmds]

/-- C13 (amended) on the sample instance with two custom commands. -/
theorem C13_newCmds_as_configured_witness :
    newCmds .perIteration sampleGuarded =
      (if sampleGuarded.Features.Commands.Pray then [prayCmd sampleGuarded] else []) ++
      (if sampleGuarded.Features.Commands.Hunt then [huntCmd sampleGuarded] else []) ++
      newCustomCmds .perIteration sampleGuarded.Features.CustomCommands ∧
    (prayCmd sampleGuarded).Value = "owo pray" ∧
    (prayCmd sampleGuarded).Interval = seconds sampleGuarded.Compat.Cooldown.Pray ∧
    (huntCmd sampleGuarded).Value = "owo hunt" ∧
    (huntCmd sampleGuarded).Interval = seconds sampleGuarded.Compat.Cooldown.Hunt ∧
    (newCustomCmds .perIteration sampleGuarded.Features.CustomCommands).map
        (fun c => (c.Value, c.Interval, c.Amount)) =
      sampleGuarded.Features.CustomCommands.map
        (fun k => (k.Value, seconds k.Interval, uint k.Amount)) ∧
    (∀ x : Int, isInt (x * 1000000000) → seconds x = x * 1000000000) ∧
    (∀ a : Int, 0 ≤ a → isInt a → (uint a : Int) = a) :=
  C13_newCmds_as_configured .perIteration sampleGuarded

theorem guardOf_perLoop (customs : List ConfigPkg.CustomCommand) (i : Nat)
    (k last : ConfigPkg.CustomCommand) (b : Int) (hk : customs[i]? = some k)
    (hlast : customs.getLast? = some last) :
    guardOf (newCustomCmds .perLoop customs) i b =
      some (decide (last.PauseBelowBalance = 0 ∨ b ≥ last.PauseBelowBalance)) := by
  simp [guardOf, newCustomCmds, hk, hlast, condFunc]
  rw [Bool.eq_iff_iff]
  simp

theorem guardOf_perIteration (customs : List ConfigPkg.CustomCommand) (i : Nat)
    (k : ConfigPkg.CustomCommand) (b : Int) (hk : customs[i]? = some k) :
    guardOf (newCustomCmds .perIteration customs) i b =
      some (decide (k.PauseBelowBalance = 0 ∨ b ≥ k.PauseBelowBalance)) := by
  simp [guardOf, newCustomCmds, hk, condFunc]
  rw [Bool.eq_iff_iff]
  simp

/-- C16, the input on which the code departs from the claim: the closure of lines 58-60
names the loop variable `cmd`, which in the Go of this code (before 1.22) is one
variable for the whole loop and holds the last custom command once newCmds has
returned.  With a balance of 50, a first custom command that is to pause below 100
and a last one without threshold, the guard of the first command answers true,
though its own threshold says false. -/
theorem C16_guard_reads_last_threshold :
    guardOf (newCmds .perLoop sampleGuarded) 0 sampleGuarded.balance = some true ∧
    sampleGuarded.Features.CustomCommands[0]? =
      some ⟨"owo buy 1", 60, 1, 100⟩ ∧
    decide ((100 : Int) = 0 ∨ sampleGuarded.balance ≥ 100) = false ∧
    guardOf (newCmds .perIteration sampleGuarded) 0 sampleGuarded.balance = some false := by
  decide

end InstancePkg

namespace InstancePkg

/-! ## newAutoSellChain -/

theorem newCmdChain_untouched (cmds : List Ptr) (I : Int) (h : Heap) :
    Untouched cmds.getLast? h (newCmdChain cmds I h).2 := by
  have hl := newCmdChainLoop_untouched cmds I cmds.length 0 h
  unfold newCmdChain
  rcases hl0 : newCmdChainLoop cmds I cmds.length 0 h with ⟨_ | e, h1⟩
  · rw [hl0] at hl
    exact hl
  · rw [hl0] at hl
    exact hl

theorem newCmdChain_ring (addrs : List Nat) (I : Int) (h : Heap) (hne : addrs ≠ [])
    (hnd : addrs.Nodup) :
    ∃ a0 h1, addrs[0]? = some a0 ∧
      newCmdChain (addrs.map some) I h = (.ok (some a0), h1) ∧
      (∀ i a b, addrs[i]? = some a → addrs[(i + 1) % addrs.length]? = some b →
        (h1 a).Next = some b) ∧
      (∀ a, addrs.getLast? = some a → (h1 a).Interval = I) := by
  have hpos : 0 < addrs.length := List.length_pos.2 hne
  obtain ⟨h1, hrun, i1, i2, -⟩ :=
    newCmdChainLoop_inv addrs I h hnd addrs.length (le_refl _)
  have h0 : addrs[0]? = some addrs[0] := List.getElem?_eq_getElem hpos
  refine ⟨addrs[0], h1, h0, ?_, ?_, ?_⟩
  · unfold newCmdChain
    rw [List.length_map, hrun]
    simp only
    rw [index_zero, index_some addrs 0 _ h0]
  · intro i a b ha hb
    have hi : i < addrs.length := (List.getElem?_eq_some.1 ha).1
    by_cases hlast : i + 1 = addrs.length
    · rw [hlast, Nat.mod_self] at hb
      refine (i2 rfl a b ?_ hb).1
      rw [show addrs.length - 1 = i by omega]
      exact ha
    · rw [Nat.mod_eq_of_lt (by omega)] at hb
      exact i1 i a b (by omega) ha hb
  · intro a ha
    rw [List.getLast?_eq_getElem?] at ha
    exact (i2 rfl a addrs[0] ha h0).2

theorem newAutoSellCmds_frame (inst : Instance) (items : List String) :
    ∀ (next : Nat) (h : Heap) (a : Nat), a < next →
      (newAutoSellCmds inst items next h).2 a = h a := by
  induction items with
  | nil => intro next h a _; rfl
  | cons item rest ih =>
    intro next h a ha
    simp only [newAutoSellCmds]
    rw [ih (next + 1) _ a (by omega), Function.update_noteq (by omega)]

theorem newAutoSellCmds_ptrs (inst : Instance) (items : List String) :
    ∀ (next : Nat) (h : Heap),
      (newAutoSellCmds inst items next h).1 = (List.range' next items.length).map some := by
  induction items with
  | nil => intro next h; rfl
  | cons item rest ih =>
    intro next h
    simp only [newAutoSellCmds, List.length_cons, List.range'_succ, List.map_cons]
    rw [ih]

theorem newAutoSellCmds_heap (inst : Instance) (items : List String) :
    ∀ (next : Nat) (h : Heap) (k : Nat) (item : String), items[k]? = some item →
      (newAutoSellCmds inst items next h).2 (next + k) = sellCmd inst item := by
  induction items with
  | nil => intro next h k item hk; simp at hk
  | cons x rest ih =>
    intro next h k item hk
    simp only [newAutoSellCmds]
    cases k with
    | zero =>
      simp only [List.getElem?_cons_zero, Option.some.injEq] at hk
      subst hk
      have hframe := newAutoSellCmds_frame inst rest (next + 1)
        (Function.update h next (sellCmd inst x)) next (by omega)
      simp only [Nat.add_zero]
      rw [hframe, Function.update_same]
    | succ k =>
      simp only [List.getElem?_cons_succ] at hk
      rw [show next + (k + 1) = next + 1 + k by omega]
      exact ih (next + 1) _ k item hk

theorem sellCmdValue_max (item : String) :
    sellCmdValue "max" item = "owo sell " ++ item ++ " max" := by
  unfold sellCmdValue sellBaseCmdValue
  rw [String.append_assoc ("owo sell" ++ " " ++ item) " " "max"]
  rfl

/-- C19, refuted as stated: with an auto-sell interval of 9223372037 seconds, which
validateFeatures accepts, the one command of the chain has a negative interval:
the multiplication by `time.Second` wraps. -/
theorem C19_long_interval_counterexample :
    ConfigPkg.validateFeatures sampleLongSell.Features = none ∧
    sampleLongSell.Features.AutoSell.Enable = true ∧
    ((newAutoSellChain sampleLongSell 0 sampleHeap).2 0).Interval = -9223372036709551616 ∧
    ¬ (0 ≤ ((newAutoSellChain sampleLongSell 0 sampleHeap).2 0).Interval) := by
  decide

/-- C19, amended: for an instance whose features pass validateFeatures with
`AutoSell.Enable` set, newAutoSellChain does not panic; it returns the command made
for the first item, every command of the chain has the value "owo sell <item> max"
of its item and links to the command of the next item, the last to the first, and
the last command has the interval `time.Duration(AutoSell.Interval) * time.Second`,
where `AutoSell.Interval >= 0`.  That interval is `AutoSell.Interval` seconds, and
not negative, whenever that many seconds fit a time.Duration. -/
theorem C19_autosell_chain_safe (inst : Instance) (next : Nat) (h : Heap)
    (hv : ConfigPkg.validateFeatures inst.Features = none)
    (he : inst.Features.AutoSell.Enable = true) :
    ∃ h1, newAutoSellChain inst next h = (.ok (some next), h1) ∧
      (∃ first, inst.Features.AutoSell.Items[0]? = some first ∧
        (h1 next).Value = "owo sell " ++ first ++ " max") ∧
      (∀ k item, inst.Features.AutoSell.Items[k]? = some item →
        (h1 (next + k)).Value = "owo sell " ++ item ++ " max" ∧
        (h1 (next + k)).Next =
          some (next + (k + 1) % inst.Features.AutoSell.Items.length)) ∧
      (h1 (next + (inst.Features.AutoSell.Items.length - 1))).Interval =
        seconds inst.Features.AutoSell.Interval ∧
      0 ≤ inst.Features.AutoSell.Interval ∧
      (isInt (inst.Features.AutoSell.Interval * 1000000000) →
        (h1 (next + (inst.Features.AutoSell.Items.length - 1))).Interval =
          inst.Features.AutoSell.Interval * 1000000000 ∧
        0 ≤ (h1 (next + (inst.Features.AutoSell.Items.length - 1))).Interval) := by
  have hvalid : inst.Features.AutoSell.Items.length ≠ 0 ∧
      0 ≤ inst.Features.AutoSell.Interval := by
    unfold ConfigPkg.validateFeatures at hv
    simp only [he, if_true] at hv
    split at hv
    · cases hv
    · rename_i hsell
      split_ifs at hsell with h1 h2
      exact ⟨h2, not_lt.1 h1⟩
  obtain ⟨hlen, hint⟩ := hvalid
  generalize hitems : inst.Features.AutoSell.Items = items at hlen ⊢
  have hn : 0 < items.length := Nat.pos_of_ne_zero hlen
  have hne : List.range' next items.length ≠ [] := by
    intro e
    have := congrArg List.length e
    rw [List.length_range', List.length_nil] at this
    omega
  obtain ⟨a0, h1, ha0, hrun, hnext, hlast⟩ :=
    newCmdChain_ring (List.range' next items.length)
      (seconds inst.Features.AutoSell.Interval)
      (newAutoSellCmds inst items next h).2 hne (List.nodup_range' next items.length)
  have hget : ∀ k, k < items.length →
      (List.range' next items.length)[k]? = some (next + k) := by
    intro k hk
    rw [List.getElem?_range' next 1 hk, Nat.one_mul]
  rw [hget 0 hn, Nat.add_zero] at ha0
  obtain rfl : a0 = next := (Option.some.inj ha0).symm
  have hrun1 : newAutoSellChain inst a0 h = (.ok (some a0), h1) := by
    unfold newAutoSellChain
    simp only [hitems]
    rw [newAutoSellCmds_ptrs]
    exact hrun
  have hval : ∀ k item, items[k]? = some item →
      (h1 (a0 + k)).Value = "owo sell " ++ item ++ " max" := by
    intro k item hk
    have hu := newCmdChain_untouched ((List.range' a0 items.length).map some)
      (seconds inst.Features.AutoSell.Interval) (newAutoSellCmds inst items a0 h).2 (a0 + k)
    rw [hrun] at hu
    rw [hu.1, newAutoSellCmds_heap inst items a0 h k item hk]
    exact sellCmdValue_max item
  have hlastI : (h1 (a0 + (items.length - 1))).Interval =
      seconds inst.Features.AutoSell.Interval := by
    apply hlast
    rw [List.getLast?_range']
    simp only [hlen, if_false, Option.some.injEq]
    omega
  refine ⟨h1, hrun1, ?_, ?_, hlastI, hint, fun hfit => ?_⟩
  · have hfirst : items[0]? = some items[0] := List.getElem?_eq_getElem hn
    exact ⟨items[0], hfirst, by simpa using hval 0 _ hfirst⟩
  · intro k item hk
    have hk1 : k < items.length := (List.getElem?_eq_some.1 hk).1
    refine ⟨hval k item hk, ?_⟩
    have hmod : (k + 1) % items.length < items.length := Nat.mod_lt _ hn
    have := hnext k (a0 + k) (a0 + (k + 1) % items.length) (hget k hk1)
      (by rw [List.length_range']; exact hget _ hmod)
    exact this
  · rw [hlastI, seconds_exact _ hfit]
    exact ⟨rfl, by positivity⟩

/-- C19 (amended) on an instance with the items "gem" and "box", allocated from
address 100 on. -/
theorem C19_autosell_chain_safe_witness :
    ∃ h1, newAutoSellChain sampleAutoSell 100 sampleHeap = (.ok (some 100), h1) ∧
      (∃ first, sampleAutoSell.Features.AutoSell.Items[0]? = some first ∧
        (h1 100).Value = "owo sell " ++ first ++ " max") ∧
      (∀ k item, sampleAutoSell.Features.AutoSell.Items[k]? = some item →
        (h1 (100 + k)).Value = "owo sell " ++ item ++ " max" ∧
        (h1 (100 + k)).Next =
          some (100 + (k + 1) % sampleAutoSell.Features.AutoSell.Items.length)) ∧
      (h1 (100 + (sampleAutoSell.Features.AutoSell.Items.length - 1))).Interval =
        seconds sampleAutoSell.Features.AutoSell.Interval ∧
      0 ≤ sampleAutoSell.Features.AutoSell.Interval ∧
      (isInt (sampleAutoSell.Features.AutoSell.Interval * 1000000000) →
        (h1 (100 + (sampleAutoSell.Features.AutoSell.Items.length - 1))).Interval =
          sampleAutoSell.Features.AutoSell.Interval * 1000000000 ∧
        0 ≤ (h1 (100 + (sampleAutoSell.Features.AutoSell.Items.length - 1))).Interval) :=
  C19_autosell_chain_safe sampleAutoSell 100 sampleHeap (by decide) (by decide)

end InstancePkg

namespace Dankgrinder

/-! ## C2: priority first, the coordinators acting on their own -/

/-- An enqueue followed by the coordinator's list operation is the enqueue of
`coordinator`. -/
theorem coordinatorFine_enqueue (q : queue) (cmd : command) :
    ((coordinatorFine q .ready (.enqueue cmd)).bind fun r =>
      coordinatorFine r.1 r.2.1 .proceed) =
    (coordinator q (.enqueue cmd)).bind fun r => .ok (r.1, .ready, none) := by
  unfold coordinatorFine coordinator
  by_cases h0 : Len q.queued = 0
  · simp [h0, Offer.bind]
  · rcases hf : Front q.queued with _ | front <;> simp [h0, hf, Offer.bind]

/-- A hand-off followed by the coordinator's list operation is the dequeue of
`coordinator`. -/
theorem coordinatorFine_dequeue (q : queue) :
    ((coordinatorFine q .ready .dequeue).bind fun r =>
      (coordinatorFine r.1 r.2.1 .proceed).bind fun r1 => .ok (r1.1, r1.2.1, r.2.2)) =
    (coordinator q .dequeue).bind fun r => .ok (r.1, .ready, r.2) := by
  unfold coordinatorFine coordinator
  by_cases h0 : Len q.queued = 0
  · simp [h0, Offer.bind]
  · rcases hf : Front q.queued with _ | front <;> simp [h0, hf, Offer.bind]

/-- C2, refuted as stated: after `P1` was received in line 103 and sent, the loop
stands at the start of its next iteration while the list of the priority queue
still holds `P1`, the `Remove` of line 73 not having run.  The loop reads length 1
in line 102 and waits in line 103; the coordinator then removes `P1`.  With a
command waiting in the normal queue the loop can neither receive in line 103 nor
take the normal command, and the command this iteration sends is `P2`, submitted
later, not the `P1` that headed the list at its start. -/
theorem C2_stale_length_counterexample :
    runFine startFine staleRun = .ok staleStart ∧
    staleStart.st.loop = .top ∧
    Len staleStart.st.s.priorityQueue.queued = 1 ∧
    Front staleStart.st.s.priorityQueue.queued = some sampleFirst ∧
    staleStart.st.dispatched = [⟨sampleFirst, .priorityQueue, none⟩] ∧
    runFine staleStart staleIteration = .ok staleBlocked ∧
    staleBlocked.st.loop = .recvPriority ∧
    staleBlocked.st.s.priorityQueue.queued = [] ∧
    staleBlocked.st.s.queue.queued = [sampleOnce] ∧
    stepFine staleBlocked (.act .loopRecvPriority) = .blocked ∧
    stepFine staleBlocked (.act (.loopSelect .queue)) = .blocked ∧
    stepFine staleBlocked (.act (.loopSelect .priorityQueue)) = .blocked ∧
    stepFine staleBlocked (.act .loopTest) = .blocked ∧
    (∃ fs, runFine staleBlocked
        [.act (.send 2 sampleSecond), .coord .priorityQueue, .act .loopRecvPriority] = .ok fs ∧
      fs.st.loop = .sending sampleSecond none ∧
      fs.st.dispatched =
        [⟨sampleFirst, .priorityQueue, none⟩, ⟨sampleSecond, .priorityQueue, none⟩] ∧
      sampleSecond ≠ sampleFirst ∧
      fs.st.s.queue.queued = [sampleOnce]) := by
  refine ⟨by decide, by decide, by decide, by decide, by decide, by decide, by decide,
    by decide, by decide, by decide, by decide, by decide, by decide, ?_⟩
  exact ⟨_, rfl, by decide, by decide, by decide, by decide⟩

/-- The list of a queue is at least as long as what the queue has not handed out. -/
theorem pendingIn_length_le (q : queue) (pc : CoordPc) :
    (pendingIn q pc).length ≤ Len q.queued := by
  cases pc <;> simp [pendingIn, RemoveFront, Len]

/-- What one action of a coordinator does to the commands not handed out. -/
theorem coordinatorFine_effect (q q1 : queue) (pc pc1 : CoordPc) (ev : CoordEvent)
    (out : Option command) (h : coordinatorFine q pc ev = .ok (q1, pc1, out)) :
    (out = none ∧ pendingIn q pc <+: pendingIn q1 pc1) ∨
    (∃ x, out = some x ∧ ev = .dequeue ∧ pendingIn q pc = x :: pendingIn q1 pc1) := by
  unfold coordinatorFine at h
  cases pc with
  | pushing cmd =>
    cases ev <;> simp at h
    obtain ⟨rfl, rfl, rfl⟩ := h
    exact .inl ⟨rfl, by simp [pendingIn, PushBack]⟩
  | removing =>
    cases ev <;> simp at h
    obtain ⟨rfl, rfl, rfl⟩ := h
    exact .inl ⟨rfl, by simp [pendingIn]⟩
  | ready =>
    simp only at h
    by_cases h0 : Len q.queued = 0
    · rw [if_pos h0] at h
      cases ev <;> simp at h
      obtain ⟨rfl, rfl, rfl⟩ := h
      exact .inl ⟨rfl, by simp [pendingIn]⟩
    · rw [if_neg h0] at h
      rcases hf : Front q.queued with _ | front
      · rw [hf] at h
        simp at h
      · rw [hf] at h
        cases ev <;> simp at h
        · obtain ⟨rfl, rfl, rfl⟩ := h
          exact .inl ⟨rfl, by simp [pendingIn]⟩
        · obtain ⟨rfl, rfl, rfl⟩ := h
          refine .inr ⟨front, rfl, rfl, ?_⟩
          simp only [pendingIn, RemoveFront]
          unfold Front at hf
          cases hq : q.queued with
          | nil => rw [hq] at hf; simp at hf
          | cons a l =>
            rw [hq] at hf
            simp at hf
            simp [hf]

/-- What one accepted action does when the coordinators act on their own: either no
command is received by the loop and no queue loses a command, or the loop receives
the oldest command the priority queue has not handed out, or the loop, waiting in
the select, receives a command from the normal queue. -/
theorem stepFine_effect (fs fs1 : FineState) (ev : FineEvent)
    (h : stepFine fs ev = .ok fs1) :
    (fs1.st.dispatched = fs.st.dispatched ∧
      pendingIn fs.st.s.priorityQueue fs.priorityPc <+:
        pendingIn fs1.st.s.priorityQueue fs1.priorityPc ∧
      pendingIn fs.st.s.queue fs.queuePc <+: pendingIn fs1.st.s.queue fs1.queuePc ∧
      (fs1.st.loop = fs.st.loop ∨
        (fs.st.loop = .top ∧ fs1.st.loop =
          if Len fs.st.s.priorityQueue.queued > 0 then .recvPriority else .select) ∨
        (∃ cmd a, fs.st.loop = .sending cmd a))) ∨
    (∃ x, (fs.st.loop = .recvPriority ∨ fs.st.loop = .select) ∧
      pendingIn fs.st.s.priorityQueue fs.priorityPc =
        x :: pendingIn fs1.st.s.priorityQueue fs1.priorityPc ∧
      pendingIn fs1.st.s.queue fs1.queuePc = pendingIn fs.st.s.queue fs.queuePc ∧
      fs1.st.dispatched = fs.st.dispatched ++ [⟨x, .priorityQueue, none⟩] ∧
      fs1.st.loop = .sending x none) ∨
    (∃ x, fs.st.loop = .select ∧
      fs1.st.dispatched = fs.st.dispatched ++ [⟨x, .queue, some fs.st.abort⟩]) := by
  have hdeliver : ∀ ch cmd fs2, deliverFine fs ch cmd = .ok fs2 →
      fs2.st.dispatched = fs.st.dispatched ∧
      pendingIn fs.st.s.priorityQueue fs.priorityPc <+:
        pendingIn fs2.st.s.priorityQueue fs2.priorityPc ∧
      pendingIn fs.st.s.queue fs.queuePc <+: pendingIn fs2.st.s.queue fs2.queuePc ∧
      fs2.st.loop = fs.st.loop := by
    intro ch cmd fs2 hd
    unfold deliverFine at hd
    split_ifs at hd with h1 h2
    · rcases hc : coordinatorFine fs.st.s.queue fs.queuePc (.enqueue cmd) with
        ⟨q1, pc1, out⟩ | _ | _ <;> rw [hc] at hd <;> simp [Offer.bind] at hd
      subst hd
      rcases coordinatorFine_effect _ _ _ _ _ _ hc with ⟨_, hpre⟩ | ⟨x, _, hev, _⟩
      · exact ⟨rfl, List.prefix_refl _, hpre, rfl⟩
      · cases hev
    · rcases hc : coordinatorFine fs.st.s.priorityQueue fs.priorityPc (.enqueue cmd) with
        ⟨q1, pc1, out⟩ | _ | _ <;> rw [hc] at hd <;> simp [Offer.bind] at hd
      subst hd
      rcases coordinatorFine_effect _ _ _ _ _ _ hc with ⟨_, hpre⟩ | ⟨x, _, hev, _⟩
      · exact ⟨rfl, hpre, List.prefix_refl _, rfl⟩
      · cases hev
  have hrecvP : ∀ r, receiveFine fs .priorityQueue = .ok r →
      pendingIn fs.st.s.priorityQueue fs.priorityPc =
        r.2 :: pendingIn r.1.st.s.priorityQueue r.1.priorityPc ∧
      r.1.st.s.queue = fs.st.s.queue ∧ r.1.queuePc = fs.queuePc ∧
      r.1.st.dispatched = fs.st.dispatched := by
    intro r hr
    unfold receiveFine at hr
    rcases hc : coordinatorFine fs.st.s.priorityQueue fs.priorityPc .dequeue with
      ⟨q1, pc1, out⟩ | _ | _ <;> rw [hc] at hr <;> simp [Offer.bind] at hr
    rcases coordinatorFine_effect _ _ _ _ _ _ hc with ⟨hout, _⟩ | ⟨x, hout, _, hpend⟩
    · subst hout
      simp at hr
    · subst hout
      simp at hr
      subst hr
      exact ⟨hpend, rfl, rfl, rfl⟩
  have hlift : ∀ ev0, (ev0 = .loopTest ∨ (∃ err, ev0 = .sendReturn err) ∨ ev0 = .watcherTest ∨
      ev0 = .abortRecv ∨ ev0 = .watcherWake) → liftStep fs ev0 = .ok fs1 →
      fs1.st.dispatched = fs.st.dispatched ∧
      pendingIn fs.st.s.priorityQueue fs.priorityPc <+:
        pendingIn fs1.st.s.priorityQueue fs1.priorityPc ∧
      pendingIn fs.st.s.queue fs.queuePc <+: pendingIn fs1.st.s.queue fs1.queuePc ∧
      (fs1.st.loop = fs.st.loop ∨
        (fs.st.loop = .top ∧ fs1.st.loop =
          if Len fs.st.s.priorityQueue.queued > 0 then .recvPriority else .select) ∨
        (∃ cmd a, fs.st.loop = .sending cmd a)) := by
    intro ev0 hev hl
    unfold liftStep at hl
    rcases hs : step fs.st ev0 with st1 | _ | _ <;> rw [hs] at hl <;>
      simp [Offer.bind] at hl
    subst hl
    obtain ⟨he, -⟩ := step_effect fs.st st1 ev0 hs
    cases he with
    | enq cmd _ _ _ _ _ _ ht =>
      rcases ht with ⟨ch, h1, _⟩ | ⟨i, ch, h1, _⟩ <;>
        rcases hev with h2 | ⟨err, h2⟩ | h2 | h2 | h2 <;> rw [h2] at h1 <;> cases h1
    | watch hloop hs1 hd =>
      exact ⟨hd, by rw [hs1], by rw [hs1], .inl hloop⟩
    | test _ h0 hloop _ hs1 hd =>
      exact ⟨hd, by rw [hs1], by rw [hs1], .inr (.inl ⟨h0, hloop⟩)⟩
    | takePriority cmd h1 =>
      rcases h1 with ⟨h1, _⟩ | ⟨h1, _⟩ <;>
        rcases hev with h2 | ⟨err, h2⟩ | h2 | h2 | h2 <;> rw [h2] at h1 <;> cases h1
    | takeNormal cmd h1 =>
      rcases hev with h2 | ⟨err, h2⟩ | h2 | h2 | h2 <;> rw [h2] at h1 <;> cases h1
    | done cmd a err _ h0 _ _ hs1 hd =>
      exact ⟨hd, by rw [hs1], by rw [hs1], .inr (.inr ⟨cmd, a, h0⟩)⟩
  cases ev with
  | coord o =>
    left
    cases o with
    | priorityQueue =>
      simp only [stepFine] at h
      rcases hc : coordinatorFine fs.st.s.priorityQueue fs.priorityPc .proceed with
        ⟨q1, pc1, out⟩ | _ | _ <;> rw [hc] at h <;> simp [Offer.bind] at h
      subst h
      rcases coordinatorFine_effect _ _ _ _ _ _ hc with ⟨_, hpre⟩ | ⟨x, _, hev, _⟩
      · exact ⟨rfl, hpre, List.prefix_refl _, .inl rfl⟩
      · cases hev
    | queue =>
      simp only [stepFine] at h
      rcases hc : coordinatorFine fs.st.s.queue fs.queuePc .proceed with
        ⟨q1, pc1, out⟩ | _ | _ <;> rw [hc] at h <;> simp [Offer.bind] at h
      subst h
      rcases coordinatorFine_effect _ _ _ _ _ _ hc with ⟨_, hpre⟩ | ⟨x, _, hev, _⟩
      · exact ⟨rfl, List.prefix_refl _, hpre, .inl rfl⟩
      · cases hev
  | act ev0 =>
    cases ev0 with
    | send ch cmd =>
      simp only [stepFine] at h
      obtain ⟨h1, h2, h3, h4⟩ := hdeliver ch cmd fs1 h
      exact .inl ⟨h1, h2, h3, .inl h4⟩
    | timer i =>
      simp only [stepFine] at h
      rcases ht : fs.st.timers.get? i with _ | t <;> rw [ht] at h <;> simp at h
      rcases hd : deliverFine fs t.1 t.2 with fs2 | _ | _ <;> rw [hd] at h <;>
        simp [Offer.bind] at h
      subst h
      obtain ⟨h1, h2, h3, h4⟩ := hdeliver t.1 t.2 fs2 hd
      exact .inl ⟨h1, h2, h3, .inl h4⟩
    | loopTest => exact .inl (hlift _ (.inl rfl) h)
    | sendReturn err => exact .inl (hlift _ (.inr (.inl ⟨err, rfl⟩)) h)
    | watcherTest => exact .inl (hlift _ (.inr (.inr (.inl rfl))) h)
    | abortRecv => exact .inl (hlift _ (.inr (.inr (.inr (.inl rfl)))) h)
    | watcherWake => exact .inl (hlift _ (.inr (.inr (.inr (.inr rfl)))) h)
    | loopRecvPriority =>
      right; left
      simp only [stepFine] at h
      rcases hl : fs.st.loop with _ | _ | _ | ⟨c0, a0⟩ <;> rw [hl] at h <;> simp at h
      rcases hr : receiveFine fs .priorityQueue with r | _ | _ <;> rw [hr] at h <;>
        simp [Offer.bind] at h
      subst h
      obtain ⟨h1, h2, h3, h4⟩ := hrecvP r hr
      exact ⟨r.2, .inl rfl, h1, by simp [enterSend, h2, h3], by simp [enterSend, h4], rfl⟩
    | loopSelect arm =>
      right
      simp only [stepFine] at h
      rcases hl : fs.st.loop with _ | _ | _ | ⟨c0, a0⟩ <;> rw [hl] at h <;> simp at h
      cases arm with
      | priorityQueue =>
        left
        simp only at h
        rcases hr : receiveFine fs .priorityQueue with r | _ | _ <;> rw [hr] at h <;>
          simp [Offer.bind] at h
        subst h
        obtain ⟨h1, h2, h3, h4⟩ := hrecvP r hr
        exact ⟨r.2, .inr rfl, h1, by simp [enterSend, h2, h3], by simp [enterSend, h4], rfl⟩
      | queue =>
        right
        simp only at h
        rcases hr : receiveFine fs .queue with r | _ | _ <;> rw [hr] at h <;>
          simp [Offer.bind] at h
        subst h
        refine ⟨r.2, rfl, ?_⟩
        unfold receiveFine at hr
        rcases hc : coordinatorFine fs.st.s.queue fs.queuePc .dequeue with
          ⟨q1, pc1, out⟩ | _ | _ <;> rw [hc] at hr <;> simp [Offer.bind] at hr
        rcases out with _ | x <;> simp at hr
        subst hr
        rfl

theorem firstIsPriority_step (fs0 : FineState) (c : command) (fs : FineState)
    (ev : FineEvent) (fs1 : FineState) (hinv : FirstIsPriority fs0 c fs)
    (h : stepFine fs ev = .ok fs1) : FirstIsPriority fs0 c fs1 := by
  have he := stepFine_effect fs fs1 ev h
  rcases hinv with ⟨hl, ⟨r, hr⟩, hd, hq⟩ | ⟨more, hd, hq⟩
  · rcases he with ⟨hd1, hp1, hq1, hloop⟩ | ⟨x, _, hp1, hq1, hd1, _⟩ | ⟨x, h0, _⟩
    · left
      refine ⟨?_, ?_, hd1.trans hd, hq.trans hq1⟩
      · rcases hloop with hloop | ⟨h0, hloop⟩ | ⟨cmd, a, h0⟩
        · rw [hloop]; exact hl
        · right
          have hlen := pendingIn_length_le fs.st.s.priorityQueue fs.priorityPc
          rw [hr] at hlen
          simp at hlen
          rw [hloop, if_pos (by omega)]
        · rcases hl with hl | hl <;> rw [h0] at hl <;> cases hl
      · rw [hr] at hp1
        obtain ⟨t, ht⟩ := hp1
        exact ⟨r ++ t, by rw [← ht]; rfl⟩
    · right
      rw [hr] at hp1
      obtain ⟨rfl, -⟩ := List.cons.inj hp1
      exact ⟨[], by rw [hd1, hd], fun _ => by rw [hq1]; exact hq⟩
    · rcases hl with hl | hl <;> rw [h0] at hl <;> cases hl
  · right
    rcases he with ⟨hd1, _, hq1, _⟩ | ⟨x, _, _, _, hd1, _⟩ | ⟨x, _, hd1⟩
    · exact ⟨more, hd1.trans hd, fun hm => (hq hm).trans hq1⟩
    · exact ⟨more ++ [⟨x, .priorityQueue, none⟩], by rw [hd1, hd]; simp,
        fun hm => by simp at hm⟩
    · exact ⟨more ++ [⟨x, .queue, some fs.st.abort⟩], by rw [hd1, hd]; simp,
        fun hm => by simp at hm⟩

theorem runFine_invariant (P : FineState → Prop)
    (hP : ∀ fs ev fs1, P fs → stepFine fs ev = .ok fs1 → P fs1) :
    ∀ (evs : List FineEvent) (fs fs1 : FineState), P fs → runFine fs evs = .ok fs1 →
      P fs1 := by
  intro evs
  induction evs with
  | nil =>
    intro fs fs1 h0 h
    simp [runFine] at h
    exact h ▸ h0
  | cons ev evs ih =>
    intro fs fs1 h0 h
    simp only [runFine] at h
    cases hs : stepFine fs ev with
    | ok fs2 =>
      rw [hs] at h
      exact ih fs2 fs1 (hP fs ev fs2 h0 hs) h
    | blocked => rw [hs] at h; simp [Offer.bind] at h
    | panic => rw [hs] at h; simp [Offer.bind] at h

/-- C2, amended: when at the start of an iteration of the dispatch loop (line 102) the
priority queue holds a command it has not handed out, `c` being the oldest, then
once the coordinator has finished the list operation it stands before, the
iteration takes the branch of line 103 and sends `c` with the normal queue as it
was; and under every interleaving of the goroutines the next command the loop
sends is `c`, received from the priority queue, and until a second command is
sent the normal queue has lost none of the commands it held. -/
theorem C2_pending_priority_first (fs : FineState) (c : command) (rest : List command)
    (htop : fs.st.loop = .top)
    (hp : pendingIn fs.st.s.priorityQueue fs.priorityPc = c :: rest) :
    (∃ fs2, runFine fs (settle fs.priorityPc ++ [.act .loopTest, .act .loopRecvPriority]) =
          .ok fs2 ∧
        fs2.st.loop = .sending c none ∧
        fs2.st.dispatched = fs.st.dispatched ++ [⟨c, .priorityQueue, none⟩] ∧
        fs2.priorityPc = .removing ∧
        fs2.st.s.priorityQueue.queued = c :: rest ++ arrived fs.priorityPc ∧
        fs2.st.s.queue = fs.st.s.queue ∧ fs2.queuePc = fs.queuePc) ∧
    (∀ evs fs1, runFine fs evs = .ok fs1 →
        (∀ d, fs1.st.dispatched.get? fs.st.dispatched.length = some d →
          d = ⟨c, .priorityQueue, none⟩) ∧
        (fs1.st.dispatched.length ≤ fs.st.dispatched.length + 1 →
          pendingIn fs.st.s.queue fs.queuePc <+: pendingIn fs1.st.s.queue fs1.queuePc)) := by
  constructor
  · obtain ⟨st, ppc, qpc⟩ := fs
    simp only at htop hp ⊢
    cases ppc with
    | ready =>
      simp only [pendingIn] at hp
      simp [settle, arrived, runFine, stepFine, liftStep, step, htop, hp, Len, Front,
        Offer.bind, receiveFine, coordinatorFine, enterSend]
    | pushing cmd =>
      simp only [pendingIn] at hp
      simp [settle, arrived, runFine, stepFine, liftStep, step, htop, hp, Len, Front,
        PushBack, Offer.bind, receiveFine, coordinatorFine, enterSend]
    | removing =>
      simp only [pendingIn, RemoveFront] at hp
      rcases hq : st.s.priorityQueue.queued with _ | ⟨x, l⟩
      · rw [hq] at hp; simp at hp
      · rw [hq] at hp
        simp at hp
        subst hp
        simp [settle, arrived, runFine, stepFine, liftStep, step, htop, hq, Len, Front,
          RemoveFront, Offer.bind, receiveFine, coordinatorFine, enterSend]
  · intro evs fs1 h
    have h0 : FirstIsPriority fs c fs :=
      .inl ⟨.inl htop, ⟨rest, hp⟩, rfl, List.prefix_refl _⟩
    have h1 := runFine_invariant (FirstIsPriority fs c) (firstIsPriority_step fs c) evs fs fs1
      h0 h
    rcases h1 with ⟨_, _, hd, hq⟩ | ⟨more, hd, hq⟩
    · refine ⟨fun d hget => ?_, fun _ => hq⟩
      rw [hd] at hget
      simp at hget
    · refine ⟨fun d hget => ?_, fun hlen => hq ?_⟩
      · rw [hd, List.get?_eq_getElem?, List.getElem?_append_right (le_refl _)] at hget
        simp at hget
        exact hget.symm
      · rw [hd] at hlen
        simp at hlen
        exact hlen

/-- C2 at the start of an iteration where the list of the priority queue holds `P1`,
already handed out, in front of `P2`, and the normal queue holds a command: after
the `Remove` of line 73 the iteration sends `P2`, and no interleaving sends
another command first. -/
theorem C2_pending_priority_first_witness :
    stalePending.st.loop = .top ∧
    stalePending.st.s.priorityQueue.queued = [sampleFirst, sampleSecond] ∧
    (∃ fs2, runFine stalePending
          [.coord .priorityQueue, .act .loopTest, .act .loopRecvPriority] = .ok fs2 ∧
        fs2.st.loop = .sending sampleSecond none ∧
        fs2.st.dispatched = stalePending.st.dispatched ++ [⟨sampleSecond, .priorityQueue, none⟩] ∧
        fs2.priorityPc = .removing ∧
        fs2.st.s.priorityQueue.queued = [sampleSecond] ∧
        fs2.st.s.queue = stalePending.st.s.queue ∧ fs2.queuePc = stalePending.queuePc) ∧
    (∀ evs fs1, runFine stalePending evs = .ok fs1 →
        (∀ d, fs1.st.dispatched.get? stalePending.st.dispatched.length = some d →
          d = ⟨sampleSecond, .priorityQueue, none⟩) ∧
        (fs1.st.dispatched.length ≤ stalePending.st.dispatched.length + 1 →
          pendingIn stalePending.st.s.queue stalePending.queuePc <+:
            pendingIn fs1.st.s.queue fs1.queuePc)) :=
  ⟨by decide, by decide,
    C2_pending_priority_first stalePending sampleSecond [] (by decide) (by decide)⟩

end Dankgrinder
